import Mathlib

/-!
Verification development for the pr-agent repository.

The Python sources are shallowly embedded: strings are `List Char`,
dictionaries are association lists in insertion order, and every Python
library call that the sources rely on (`str.strip`, `str.splitlines`,
`os.path.normpath`, the concrete regular expressions, ...) is translated
into an executable Lean function that is faithful to its documented
behaviour on the inputs the sources can produce.  Machine integers play
no role: Python integers are unbounded, so `Nat`/`Int` model them
directly.
-/

/-- Python strings are modelled as lists of characters. -/
abbrev Str := List Char

namespace PyStr

/-- The ASCII whitespace characters recognised by Python's `str.strip`,
`str.splitlines` and the regex class `\s` (the sources only ever feed
ASCII whitespace to these functions). -/
def isSpace (c : Char) : Bool :=
  c = ' ' || c = '\t' || c = '\n' || c = '\r' || c = Char.ofNat 11 || c = Char.ofNat 12

/-- `str.lstrip()` with the default (whitespace) argument. -/
def lstrip (s : Str) : Str := s.dropWhile isSpace

/-- `str.rstrip()` with the default (whitespace) argument. -/
def rstrip (s : Str) : Str := (s.reverse.dropWhile isSpace).reverse

/-- `str.strip()` with the default (whitespace) argument. -/
def strip (s : Str) : Str := rstrip (lstrip s)

/-- `str.lower()` (the sources only lowercase ASCII path/action text). -/
def lower (s : Str) : Str := s.map Char.toLower

/-- `s.startswith(p)` for a single prefix argument. -/
def hasPre (p s : Str) : Bool :=
  match p, s with
  | [], _ => true
  | _ :: _, [] => false
  | a :: p, b :: s => a = b && hasPre p s

/-- Python's substring test `p in s`. -/
def hasSub (p s : Str) : Bool :=
  match s with
  | [] => hasPre p []
  | _ :: t => hasPre p s || hasSub p t

/-- `s.endswith(p)` for a single suffix argument. -/
def hasSuf (p s : Str) : Bool := hasPre p.reverse s.reverse

/-- Accumulating scan behind `splitlines` (a `\r\n` pair is one
separator). -/
def splitlinesAux : Str → Str → List Str
  | [], acc => if acc.isEmpty then [] else [acc.reverse]
  | '\r' :: '\n' :: t, acc => acc.reverse :: splitlinesAux t []
  | '\r' :: t, acc => acc.reverse :: splitlinesAux t []
  | '\n' :: t, acc => acc.reverse :: splitlinesAux t []
  | c :: t, acc => splitlinesAux t (c :: acc)

/-- `str.splitlines()` restricted to the line separators the sources
produce (`\n`, `\r\n`, `\r`); no trailing empty line for a final
terminator, matching Python. -/
def splitlines (s : Str) : List Str := splitlinesAux s []

/-- One step of `str.replace(old, new)`: at each position replace a
(non-empty) occurrence of `old` by `new` and continue after it.  The
fuel argument is an upper bound on the number of inspected positions. -/
def replaceAux (old new : Str) : Nat → Str → Str
  | 0, s => s
  | _ + 1, [] => []
  | fuel + 1, c :: t =>
    if hasPre old (c :: t) then
      new ++ replaceAux old new fuel ((c :: t).drop old.length)
    else
      c :: replaceAux old new fuel t

/-- `s.replace(old, new)`; the sources never call it with an empty
`old`, for which the scan below simply returns `s` unchanged. -/
def replace (s old new : Str) : Str :=
  if old.isEmpty then s else replaceAux old new s.length s

/-- `sep.join(xs)`. -/
def joinWith (sep : Str) : List Str → Str
  | [] => []
  | [x] => x
  | x :: y :: t => x ++ sep ++ joinWith sep (y :: t)

/-- Fuelled scan behind `splitSub`; the fuel bounds the number of
inspected positions and the separator is non-empty. -/
def splitSubAux (sep : Str) : Nat → Str → Str → List Str
  | 0, s, acc => [acc.reverse ++ s]
  | _ + 1, [], acc => [acc.reverse]
  | fuel + 1, c :: t, acc =>
    if hasPre sep (c :: t) then
      acc.reverse :: splitSubAux sep fuel ((c :: t).drop sep.length) []
    else
      splitSubAux sep fuel t (c :: acc)

/-- `s.split(sep)` for a non-empty separator (the only way the sources
call it). -/
def splitSub (sep s : Str) : List Str :=
  if sep.isEmpty then [s] else splitSubAux sep s.length s []

/-- Scan behind `rfindChar`. -/
def rfindCharAux (c : Char) : Nat → Str → Option Nat → Option Nat
  | _, [], best => best
  | i, a :: t, best => rfindCharAux c (i + 1) t (if a = c then some i else best)

/-- Index of the last occurrence of character `c` (Python `rfind`),
`none` when absent. -/
def rfindChar (c : Char) (s : Str) : Option Nat :=
  rfindCharAux c 0 s none

/-- Lexicographic comparison on code points, Python's `<` on `str`. -/
def lexLt : Str → Str → Bool
  | [], [] => false
  | [], _ :: _ => true
  | _ :: _, [] => false
  | a :: s, b :: t =>
    if a.toNat < b.toNat then true
    else if b.toNat < a.toNat then false
    else lexLt s t

/-- `¬ (t < s)`, the total order used for `sorted` below. -/
def lexLe (s t : Str) : Bool := !lexLt t s

/-- Stable insertion placing `x` after every element it is not strictly
smaller than; folding it implements Python's stable `sorted`. -/
def insLex (x : Str) : List Str → List Str
  | [] => [x]
  | y :: t => if lexLe x y then x :: y :: t else y :: insLex x t

/-- Python `sorted` on strings. -/
def sortedLex : List Str → List Str
  | [] => []
  | x :: t => insLex x (sortedLex t)

/-- Membership of a string in a list of strings, as a Bool. -/
def memB (x : Str) (l : List Str) : Bool := l.any (fun y => y = x)

/-- Remove duplicates, keeping one copy of each string (the `set(...)`
steps in the sources are always followed by `sorted`, so the retained
order is irrelevant). -/
def dedup : List Str → List Str
  | [] => []
  | x :: t => if memB x t then dedup t else x :: dedup t

/-- `a` occurs contiguously inside `b`. -/
def occursIn (a b : Str) : Prop := ∃ u v, b = u ++ a ++ v

end PyStr

namespace PyDict

/-- Python `dict[k] = v`: overwrite in place when the key is present,
append otherwise. -/
def dSet {α : Type} (m : List (Str × α)) (k : Str) (v : α) : List (Str × α) :=
  match m with
  | [] => [(k, v)]
  | (k', v') :: t => if k' = k then (k, v) :: t else (k', v') :: dSet t k v

/-- Python `dict.get(k)` / `k in dict` support: first binding wins (the
sources build their dicts with `dSet`, which keeps keys unique). -/
def dGet {α : Type} (m : List (Str × α)) (k : Str) : Option α :=
  match m with
  | [] => none
  | (k', v) :: t => if k' = k then some v else dGet t k

/-- `k in dict`. -/
def dMem {α : Type} (m : List (Str × α)) (k : Str) : Bool :=
  (dGet m k).isSome

end PyDict

namespace PyPath

open PyStr

/-- `os.path.dirname` (POSIX): the part up to the last slash, with
trailing slashes of the head removed unless the head is all slashes. -/
def dirname (p : Str) : Str :=
  match rfindChar '/' p with
  | none => []
  | some i =>
    let head := p.take (i + 1)
    if head.isEmpty || head.all (fun c => c = '/') then head
    else (head.reverse.dropWhile (fun c => c = '/')).reverse

/-- `os.path.join(a, b)` (POSIX) for the two-argument form. -/
def pjoin (a b : Str) : Str :=
  if hasPre ("/".data) b then b
  else if a.isEmpty || hasSuf ("/".data) a then a ++ b
  else a ++ ("/".data) ++ b

/-- The component step of `posixpath.normpath`. -/
def normStep (hasRoot : Bool) (acc : List Str) (comp : Str) : List Str :=
  if comp.isEmpty || comp == (".".data) then acc
  else if comp != ("..".data) || (!hasRoot && acc.isEmpty)
          || (!acc.isEmpty && acc.getLast? == some ("..".data)) then
    acc ++ [comp]
  else if !acc.isEmpty then acc.dropLast
  else acc

/-- `os.path.normpath` (POSIX). -/
def normpath (p : Str) : Str :=
  if p.isEmpty then (".".data)
  else
    let root : Nat :=
      if hasPre ("//".data) p && !hasPre ("///".data) p then 2
      else if hasPre ("/".data) p then 1 else 0
    let comps := splitSub ("/".data) p
    let newComps := comps.foldl (normStep (root > 0)) []
    let joined := List.replicate root '/' ++ joinWith ("/".data) newComps
    if joined.isEmpty then (".".data) else joined

/-- `os.path.splitext(p)[1]`: the extension including its dot, or `[]`.
Follows CPython: the last dot must come after the last slash and some
earlier character of the basename must not be a dot. -/
def splitextExt (p : Str) : Str :=
  let sepIdx : Int := match rfindChar '/' p with | none => -1 | some i => (i : Int)
  let dotIdx : Int := match rfindChar '.' p with | none => -1 | some i => (i : Int)
  if sepIdx < dotIdx then
    let nameStart := (sepIdx + 1).toNat
    let base := (p.take dotIdx.toNat).drop nameStart
    if base.any (fun c => c ≠ '.') then p.drop dotIdx.toNat else []
  else []

end PyPath

/-! ## Embedding of `backend/agent/preprocessing/file_preprocess.py` -/

namespace FilePre

open PyStr PyDict PyPath

def MAX_FILE_LENGTH : Nat := 50000

def MAX_TOKENS_PER_FILE : Nat := 3000

def IMPORTANT_EXTENSIONS : List Str :=
  [".ts".data, ".tsx".data, ".js".data, ".jsx".data, ".py".data,
   ".java".data, ".go".data, ".json".data, ".md".data]

def IGNORE_PATTERNS : List Str :=
  [".test.".data, "__mocks__".data, "mock".data, "node_modules".data,
   "dist".data, "build".data, ".next".data]

def PRIORITY_ORDER : List Str :=
  ["API Route".data, "Authentication".data, "Dashboard Page".data,
   "Login Page".data, "Visualization".data, "Utilities".data,
   "Middleware".data, "Configuration".data, "Source Code".data,
   "Stylesheet".data, "Git Hook".data, "Test File".data,
   "Documentation".data]

/-- `classify_file` from the source: ordered first-match rules over the
lowered path (the `endswith` rules inspect the original path). -/
def classify_file (path : Str) : Str :=
  let pl := lower path
  if hasSub ("test".data) pl || hasSub (".test.".data) pl || hasSub ("_test".data) pl then
    ("Test File".data)
  else if hasSub ("login".data) pl then ("Login Page".data)
  else if hasSub ("dashboard".data) pl then ("Dashboard Page".data)
  else if hasSub ("api".data) pl then ("API Route".data)
  else if hasSub ("auth".data) pl then ("Authentication".data)
  else if hasSub ("hooks/".data) pl then ("Git Hook".data)
  else if hasSub ("charts/".data) pl then ("Visualization".data)
  else if hasSuf (".env".data) path || hasSuf (".env.local".data) path
       || hasSuf (".env.production".data) path then ("Configuration".data)
  else if hasSuf (".json".data) path || hasSuf (".config.js".data) path
       || hasSuf (".config.ts".data) path then ("Configuration".data)
  else if hasSuf (".css".data) path || hasSuf (".scss".data) path then ("Stylesheet".data)
  else if hasSuf (".md".data) path then ("Documentation".data)
  else if hasSub ("utils".data) pl || hasSub ("helper".data) pl then ("Utilities".data)
  else if hasSub ("middleware".data) pl then ("Middleware".data)
  else ("Source Code".data)

/-- `list.index` scan; when the element is absent the scan ends at the
list's length, which is exactly the `ValueError` fallback in the
source. -/
def idxOfAux (x : Str) : Nat → List Str → Nat
  | i, [] => i
  | i, y :: t => if y == x then i else idxOfAux x (i + 1) t

/-- `get_priority_score` from the source. -/
def get_priority_score (path : Str) : Nat :=
  idxOfAux (classify_file path) 0 PRIORITY_ORDER

/-- A Python triple-quote of double quotes. -/
def tripleD : Str := List.replicate 3 (Char.ofNat 34)

/-- A Python triple-quote of single quotes. -/
def tripleS : Str := List.replicate 3 (Char.ofNat 39)

/-- The lookahead of `extract_summary`'s `def/class/function/export`
branch: scan `lines[j]` for `j` in `[i+1, min(i+5, len(lines)))` for a
docstring-looking line; the fuel (4 at the call site) bounds the window
width. -/
def summaryDocScan (allLines : List Str) (stop : Nat) : Nat → Nat → Option Str
  | 0, _ => Option.none
  | fuel + 1, j =>
    if j < stop then
      let docLine := strip (allLines.getD j [])
      if hasPre tripleD docLine || hasPre tripleS docLine || hasPre ("//".data) docLine then
        some (("// ".data) ++ docLine)
      else summaryDocScan allLines stop fuel (j + 1)
    else Option.none

/-- The main loop of `extract_summary`, walking the first
`max_lines` lines with the `in_multiline_comment` flag. -/
def summaryLoop (allLines : List Str) : List Str → Nat → Bool → List Str → List Str
  | [], _, _, acc => acc.reverse
  | line :: rest, i, inML, acc =>
    let stripped := strip line
    if stripped.isEmpty then summaryLoop allLines rest (i + 1) inML acc
    else if hasSub ("/**".data) stripped || hasSub ("/*".data) stripped then
      summaryLoop allLines rest (i + 1) true (stripped :: acc)
    else if hasSub ("*/".data) stripped && inML then
      summaryLoop allLines rest (i + 1) false (stripped :: acc)
    else if inML then summaryLoop allLines rest (i + 1) inML (stripped :: acc)
    else if hasPre ("//".data) stripped || hasPre ("#".data) stripped
         || hasPre tripleD stripped || hasPre tripleS stripped then
      summaryLoop allLines rest (i + 1) inML (stripped :: acc)
    else if hasPre ("*".data) stripped
         && ([("@param".data), ("@returns".data), ("@description".data),
              ("@example".data)].any (fun tag => hasSub tag stripped)) then
      summaryLoop allLines rest (i + 1) inML (stripped :: acc)
    else if hasPre ("def ".data) stripped || hasPre ("class ".data) stripped
         || hasPre ("function ".data) stripped || hasPre ("export ".data) stripped then
      match summaryDocScan allLines (min (i + 5) allLines.length) 4 (i + 1) with
      | some d => (d :: acc).reverse
      | none => acc.reverse
    else acc.reverse

/-- `extract_summary` from the source (its `max_lines` default is 20 at
every call site). -/
def extract_summary (code : Str) (maxLines : Nat) : Str :=
  let lines := splitlines (strip code)
  strip (joinWith ("\n".data) (summaryLoop lines (lines.take maxLines) 0 false []))

/-- A Python regex quote class `['"]`. -/
def quoteChar (c : Char) : Bool := c = Char.ofNat 39 || c = Char.ofNat 34

/-- The lazy group `(.+?)['"]`: the shortest non-empty capture ending
right before a quote; `.` does not cross a newline. -/
def lazyCaptureAux (acc : Str) : Str → Option Str
  | [] => none
  | c :: t =>
    if !acc.isEmpty && quoteChar c then some acc.reverse
    else if c = '\n' then none
    else lazyCaptureAux (c :: acc) t

/-- A single attempt of `(?:from|import)\s+['"](.+?)['"]` anchored at
the current position (`from` is tried before `import`, as in the
pattern). -/
def importMatchAt (s : Str) : Option Str :=
  let afterKw : Option Str :=
    if hasPre ("from".data) s then some (s.drop 4)
    else if hasPre ("import".data) s then some (s.drop 6)
    else none
  match afterKw with
  | none => none
  | some r =>
    if (r.takeWhile isSpace).isEmpty then none
    else
      match r.dropWhile isSpace with
      | [] => none
      | c :: t => if quoteChar c then lazyCaptureAux [] t else none

/-- `re.search` of the pattern above: first matching position wins. -/
def importSearch : Str → Option Str
  | [] => none
  | c :: t =>
    match importMatchAt (c :: t) with
    | some cap => some cap
    | none => importSearch t

def SCRIPT_EXTS : List Str :=
  [".ts".data, ".tsx".data, ".js".data, ".jsx".data, ".py".data]

/-- `extract_imports` from the source: per stripped line starting with
`import`/`from`, the regex capture, kept only when it starts with a
dot. -/
def extract_imports (path content : Str) : List Str :=
  if !memB (splitextExt path) SCRIPT_EXTS then []
  else
    (splitlines content).flatMap (fun line0 =>
      let line := strip line0
      if hasPre ("import".data) line || hasPre ("from".data) line then
        match importSearch line with
        | some imp => if hasPre (".".data) imp then [imp] else []
        | none => []
      else [])

/-- `estimate_tokens` from the source, in its fallback form
`int(len(text) / 4)` (no `tiktoken` in the modelled environment). -/
def estimate_tokens (text : Str) : Nat := text.length / 4

/-- `should_include_file` from the source. -/
def should_include_file (path content : Str) : Bool :=
  if IGNORE_PATTERNS.any (fun p => hasSub p path) then false
  else if content.length > MAX_FILE_LENGTH then false
  else if estimate_tokens content > MAX_TOKENS_PER_FILE then false
  else if classify_file path == ("Test File".data) then false
  else memB (splitextExt path) IMPORTANT_EXTENSIONS

/-- The regex class `[a-zA-Z0-9_\.]`. -/
def wordDotChar (c : Char) : Bool :=
  c.isAlpha || c.isDigit || c = '_' || c = '.'

/-- The regex class `\w`. -/
def wordChar (c : Char) : Bool := c.isAlpha || c.isDigit || c = '_'

/-- `re.findall` of `(?:import|from)\s+([a-zA-Z0-9_\.]+)`: the scan
resumes after each match; the fuel bounds the inspected positions. -/
def depScanAux : Nat → Str → List Str
  | 0, _ => []
  | _ + 1, [] => []
  | fuel + 1, s@(_ :: t) =>
    let kwLen : Option Nat :=
      if hasPre ("import".data) s then some 6
      else if hasPre ("from".data) s then some 4
      else none
    match kwLen with
    | none => depScanAux fuel t
    | some k =>
      let r := s.drop k
      if (r.takeWhile isSpace).isEmpty then depScanAux fuel t
      else
        let r2 := r.dropWhile isSpace
        let cap := r2.takeWhile wordDotChar
        if cap.isEmpty then depScanAux fuel t
        else cap :: depScanAux fuel (r2.drop cap.length)

/-- `extract_dependencies` from the source:
`sorted(list(set(re.findall(...))))`. -/
def extract_dependencies (content : Str) : List Str :=
  sortedLex (dedup (depScanAux (content.length + 1) content))

/-- `re.search` of `(function|const)\s+(\w+)` (`function` is tried
first at each position, as in the pattern). -/
def symNameScan : Nat → Str → Option Str
  | 0, _ => none
  | _ + 1, [] => none
  | fuel + 1, s@(_ :: t) =>
    let kwLen : Option Nat :=
      if hasPre ("function".data) s then some 8
      else if hasPre ("const".data) s then some 5
      else none
    match kwLen with
    | none => symNameScan fuel t
    | some k =>
      let r := s.drop k
      if (r.takeWhile isSpace).isEmpty then symNameScan fuel t
      else
        let cap := (r.dropWhile isSpace).takeWhile wordChar
        if cap.isEmpty then symNameScan fuel t else some cap

/-- `re.search` of `interface (\w+)`. -/
def interfaceNameScan : Str → Option Str
  | [] => none
  | s@(_ :: t) =>
    if hasPre ("interface ".data) s then
      let cap := (s.drop 10).takeWhile wordChar
      if cap.isEmpty then interfaceNameScan t else some cap
    else interfaceNameScan t

/-- `re.search` of `const (\w+)`. -/
def constNameScan : Str → Option Str
  | [] => none
  | s@(_ :: t) =>
    if hasPre ("const ".data) s then
      let cap := (s.drop 6).takeWhile wordChar
      if cap.isEmpty then constNameScan t else some cap
    else constNameScan t

/-- `re.match` of `^const \w+ = \(`. -/
def constArrowMatch (line : Str) : Bool :=
  if hasPre ("const ".data) line then
    let r := line.drop 6
    let w := r.takeWhile wordChar
    !w.isEmpty && hasPre (" = (".data) (r.drop w.length)
  else false

def TS_FAMILY : List Str := [".ts".data, ".tsx".data, ".js".data, ".jsx".data]

/-- The indexed line walk of `extract_code_symbols`; `allLines` gives
access to the raw (unstripped) next line for the arrow-function
rule. -/
def symbolsLoop (allLines : List Str) (ext : Str) : List Str → Nat → List Str
  | [], _ => []
  | line0 :: rest, i =>
    let line := strip line0
    let here : List Str :=
      if memB ext TS_FAMILY then
        if hasPre ("export function ".data) line || hasPre ("export const ".data) line
           || hasPre ("export async function ".data) line then
          match symNameScan (line.length + 1) line with
          | some nm => [("function ".data) ++ nm ++ ("(...)".data)]
          | none => []
        else if hasPre ("export default function ".data) line then
          [("function default(...)".data)]
        else if hasSub ("interface ".data) line && hasSub ("export".data) line then
          match interfaceNameScan line with
          | some nm => [("interface ".data) ++ nm]
          | none => []
        else if (i + 1 < allLines.length) && constArrowMatch line
                && hasSub ("=>".data) (allLines.getD (i + 1) []) then
          match constNameScan line with
          | some nm => [("function ".data) ++ nm]
          | none => []
        else []
      else if ext == (".py".data) then
        if hasPre ("def ".data) line || hasPre ("class ".data) line then [line] else []
      else []
    here ++ symbolsLoop allLines ext rest (i + 1)

/-- `extract_code_symbols` from the source. -/
def extract_code_symbols (path content : Str) : List Str :=
  symbolsLoop (splitlines content) (splitextExt path) (splitlines content) 0

/-- The truthiness-aware `code_map.get(k1) or code_map.get(k2)`. -/
def pyOrGet (m : List (Str × Str)) (k1 k2 : Str) : Option Str :=
  match dGet m k1 with
  | some v => if v.isEmpty then dGet m k2 else some v
  | none => dGet m k2

/-- `infer_tech_stack` from the source; the `set` of added names is
rendered through `sorted`. -/
def infer_tech_stack (code_map : List (Str × Str)) : List Str :=
  let pkgAdds : List Str :=
    match pyOrGet code_map ("/workspace/user-profile-app/package.json".data) ("package.json".data) with
    | some pkg0 =>
      if pkg0.isEmpty then [] else
        let pkg := lower pkg0
        (if hasSub ("next".data) pkg then [("Next.js".data)] else [])
        ++ (if hasSub ("react".data) pkg then [("React".data)] else [])
        ++ (if hasSub ("tailwind".data) pkg then [("Tailwind CSS".data)] else [])
        ++ (if hasSub ("chart.js".data) pkg then [("Chart.js".data)] else [])
        ++ (if hasSub ("supabase".data) pkg then [("Supabase".data)] else [])
    | none => []
  let tsAdds : List Str :=
    match pyOrGet code_map ("/workspace/user-profile-app/tsconfig.json".data) ("tsconfig.json".data) with
    | some ts => if ts.isEmpty then [] else [("TypeScript".data)]
    | none => []
  let readmeAdds : List Str :=
    match pyOrGet code_map ("/workspace/README.md".data) ("README.md".data) with
    | some rm0 =>
      if rm0.isEmpty then [] else
        let rm := lower rm0
        (if hasSub ("postgres".data) rm then [("PostgreSQL".data)] else [])
        ++ (if hasSub ("forecast".data) rm || hasSub ("holt-winters".data) rm then
              [("Holt-Winters Forecasting".data)] else [])
        ++ (if hasSub ("supabase".data) rm then [("Supabase".data)] else [])
        ++ (if hasSub ("tailwind".data) rm then [("Tailwind CSS".data)] else [])
    | none => []
  sortedLex (dedup (pkgAdds ++ tsAdds ++ readmeAdds))

/-- Strip one of the route-file suffixes (the anchored
`re.sub(..., "$", ...)` calls): the unique matching suffix, if any, is
removed. -/
def dropSufFirst (cands : List Str) (s : Str) : Str :=
  match cands.find? (fun c => hasSuf c s) with
  | some c => s.take (s.length - c.length)
  | none => s

/-- The per-path body of `extract_route_map`. -/
def routeFor (path : Str) : Option Str :=
  if hasSub ("/app/".data) path then
    let rp0 := ((splitSub ("/app/".data) path).getLast?).getD []
    let rp1 := dropSufFirst
      [("/page.tsx".data), ("/page.ts".data), ("/page.jsx".data), ("/page.js".data)] rp0
    let rp2 := dropSufFirst [("/route.ts".data), ("/route.js".data)] rp1
    let rp3 :=
      if rp2.isEmpty then ("/".data)
      else ("/".data) ++ replace (replace rp2 ("/page".data) []) ("/route".data) []
    some (rp3 ++ (" → ".data) ++ replace path ("/workspace/".data) [])
  else none

/-- `extract_route_map` from the source. -/
def extract_route_map (code_map : List (Str × Str)) : List Str :=
  sortedLex (code_map.filterMap (fun pc => routeFor pc.1))

/-- `build_file_block` from the source. -/
def build_file_block (path content : Str) : Str :=
  let label := classify_file path
  let summary := extract_summary content 20
  let symbols := extract_code_symbols path content
  let dependencies := extract_dependencies content
  let rel := replace path ("/workspace/".data) []
  let ext0 := (splitextExt path).drop 1
  let ext := if ext0.isEmpty then ("txt".data) else ext0
  ("📁 FILE: ".data) ++ rel ++ ("\n🏷️ TYPE: ".data) ++ label
  ++ (if summary.isEmpty then [] else ("\n📝 SUMMARY:\n".data) ++ summary)
  ++ (if symbols.isEmpty then [] else
       ("\n🔣 SYMBOLS:\n".data)
       ++ joinWith ("\n".data) (symbols.map (fun s => ("  - ".data) ++ s)))
  ++ (if dependencies.isEmpty then [] else
       ("\n🌐 DEPENDENCIES:\n".data)
       ++ joinWith ("\n".data) (dependencies.map (fun d => ("  - ".data) ++ d)))
  ++ ("\n🔢 TOKENS: ".data) ++ (Nat.repr (estimate_tokens content)).data
  ++ ("\n📄 CONTENT:\n```".data) ++ ext ++ ("\n".data) ++ strip content ++ ("\n```\n".data)

/-- The relative-path normalisation used for `path_map` keys and
dependency-graph keys. -/
def relNorm (path : Str) : Str :=
  replace (replace path ("/workspace/".data) []) ("\\".data) ("/".data)

/-- The `path_map` dict comprehension. -/
def path_map (code_map : List (Str × Str)) : List (Str × Str) :=
  code_map.foldl (fun m pc => dSet m (relNorm pc.1) pc.1) []

def EXT5 : List Str := [".ts".data, ".tsx".data, ".js".data, ".jsx".data, ".py".data]

/-- Resolution of one raw relative import: join against the importer's
directory, normalise, probe the candidate extensions in order, first
known file wins. -/
def resolve_import (pm : List (Str × Str)) (basePath imp : Str) : Option Str :=
  let possible := replace (normpath (pjoin basePath imp)) ("\\".data) ("/".data)
  (EXT5.find? (fun ext => dMem pm (possible ++ ext))).map (fun ext => possible ++ ext)

/-- The resolved imports of one file (the inner loop of
`preprocess_codebase`). -/
def resolvedImports (pm : List (Str × Str)) (path content : Str) : List Str :=
  let base := dirname (relNorm path)
  (extract_imports path content).filterMap (resolve_import pm base)

/-- Stable insertion by priority score; folded, it is Python's stable
`sorted(code_map.items(), key=lambda item: get_priority_score(item[0]))`. -/
def insByScore (x : Str × Str) : List (Str × Str) → List (Str × Str)
  | [] => [x]
  | y :: t =>
    if get_priority_score x.1 ≤ get_priority_score y.1 then x :: y :: t
    else y :: insByScore x t

/-- Python's stable `sorted` by priority score. -/
def sorted_files : List (Str × Str) → List (Str × Str)
  | [] => []
  | x :: t => insByScore x (sorted_files t)

/-- The files that survive `should_include_file`, in packed order. -/
def included_files (m : List (Str × Str)) : List (Str × Str) :=
  (sorted_files m).filter (fun pc => should_include_file pc.1 pc.2)

/-- The rendered per-file blocks, in packed order. -/
def file_blocks (m : List (Str × Str)) : List Str :=
  (included_files m).map (fun pc => build_file_block pc.1 pc.2)

/-- The `dependency_graph` dict built by the main loop. -/
def dependency_graph (m : List (Str × Str)) : List (Str × List Str) :=
  let pm := path_map m
  (included_files m).foldl
    (fun g pc =>
      let res := resolvedImports pm pc.1 pc.2
      if res.isEmpty then g else dSet g (relNorm pc.1) res) []

/-- The `symbol_index` dict built by the main loop. -/
def symbol_index (m : List (Str × Str)) : List (Str × List Str) :=
  (included_files m).foldl
    (fun si pc =>
      let syms := extract_code_symbols pc.1 pc.2
      if syms.isEmpty then si
      else dSet si (replace pc.1 ("/workspace/".data) []) syms) []

/-- `total_chars` accumulated over the included files. -/
def total_chars (m : List (Str × Str)) : Nat :=
  (included_files m).foldl (fun a pc => a + pc.2.length) 0

/-- `total_tokens` accumulated over the included files. -/
def total_tokens (m : List (Str × Str)) : Nat :=
  (included_files m).foldl (fun a pc => a + estimate_tokens pc.2) 0

/-- The number of skipped files. -/
def skipped_count (m : List (Str × Str)) : Nat :=
  ((sorted_files m).filter (fun pc => !should_include_file pc.1 pc.2)).length

/-- The `route_summary` string. -/
def route_summary (m : List (Str × Str)) : Str :=
  ("🗺️ ROUTE MAP:\n".data)
  ++ joinWith ("\n".data) ((extract_route_map m).map (fun r => ("- ".data) ++ r))
  ++ ("\n".data)

/-- The `symbol_summary` string. -/
def symbol_summary (m : List (Str × Str)) : Str :=
  ("🧩 FUNCTION & INTERFACE INDEX:\n".data)
  ++ (symbol_index m).foldl
      (fun acc e =>
        acc ++ ("- ".data) ++ e.1 ++ (":\n".data)
        ++ e.2.foldl (fun a s => a ++ ("    - ".data) ++ s ++ ("\n".data)) []) []

/-- The `dep_summary` string. -/
def dep_summary (m : List (Str × Str)) : Str :=
  ("🔗 FILE DEPENDENCY GRAPH:\n".data)
  ++ (dependency_graph m).foldl
      (fun acc e =>
        acc ++ ("- ".data) ++ e.1 ++ (" → ".data)
        ++ joinWith (", ".data) e.2 ++ ("\n".data)) []

/-- The `summary` header string. -/
def summary_header (m : List (Str × Str)) : Str :=
  ("📦 TOTAL FILES INCLUDED: ".data) ++ (Nat.repr (file_blocks m).length).data
  ++ ("\n📄 TOTAL CHARACTERS: ".data) ++ (Nat.repr (total_chars m)).data
  ++ ("\n🔢 TOTAL TOKENS: ".data) ++ (Nat.repr (total_tokens m)).data
  ++ ("\n💻 TECH STACK: ".data) ++ joinWith (", ".data) (infer_tech_stack m)
  ++ ("\n🚫 SKIPPED FILES: ".data) ++ (Nat.repr (skipped_count m)).data
  ++ ("\n".data)

/-- `preprocess_codebase` from the source: the digest string. -/
def preprocess_codebase (m : List (Str × Str)) : Str :=
  summary_header m ++ ("\n".data) ++ route_summary m ++ ("\n".data)
  ++ symbol_summary m ++ ("\n".data) ++ dep_summary m
  ++ ("\n---\n".data) ++ joinWith ("\n---\n".data) (file_blocks m)

end FilePre

/-! ## Embedding of the plan parsers

`parse_plan_generalized` exists twice in the sources: the executor-facing
one in `file_modification/plan_file_application.py` and the generalized
one in `file_modification/plan_parsing.py`.  The latter is embedded at
its default `codebase_context=""` argument, for which
`GeneralizedPlanParser` carries no analyzer and all derived fields are
the documented constants (`False`/`[]`). -/

namespace Plan

open PyStr

/-- First occurrence split: `some (before, after)` around the first
occurrence of `pat`, `none` when `pat` does not occur. -/
def findSub (pat : Str) : Str → Option (Str × Str)
  | [] => if pat.isEmpty then some ([], []) else none
  | s@(c :: t) =>
    if hasPre pat s then some ([], s.drop pat.length)
    else
      match findSub pat t with
      | some (pre, rest) => some (c :: pre, rest)
      | none => none

/-- `re.findall(r"<open>(.*?)</close>", s, re.DOTALL)`: leftmost
matches, lazy inner capture, scan resuming after each match. -/
def tagRecords (openT closeT : Str) : Nat → Str → List Str
  | 0, _ => []
  | fuel + 1, s =>
    match findSub openT s with
    | none => []
    | some (_, afterOpen) =>
      match findSub closeT afterOpen with
      | none => []
      | some (inner, rest) => inner :: tagRecords openT closeT fuel rest

/-- `re.search(r"<open>(.*?)</close>", s, re.DOTALL)`: the capture of
the first match. -/
def searchTag (openT closeT s : Str) : Option Str :=
  match findSub openT s with
  | none => none
  | some (_, afterOpen) => (findSub closeT afterOpen).map (fun pr => pr.1)

/-- The `<step>` records of a plan text. -/
def planRecords (planText : Str) : List Str :=
  tagRecords ("<step>".data) ("</step>".data) planText.length planText

def actionOf (r : Str) : Option Str := searchTag ("<action>".data) ("</action>".data) r

def fileOf (r : Str) : Option Str := searchTag ("<file>".data) ("</file>".data) r

def descrOf (r : Str) : Option Str := searchTag ("<description>".data) ("</description>".data) r

/-- A parsed plan step (the dict `{"action": ..., "file": ...,
"description": ...}` of `plan_file_application.py`). -/
structure PlanStep where
  action : Str
  file : Str
  descr : Str
deriving DecidableEq

/-- `parse_plan_generalized` from `plan_file_application.py`: the
accumulating record loop, appending one step per record that has all
three fields. -/
def parse_plan_fa (planText : Str) : List PlanStep :=
  (planRecords planText).foldl
    (fun steps raw =>
      match actionOf raw, fileOf raw, descrOf raw with
      | some a, some f, some d =>
        steps ++ [⟨lower (strip a), strip f, strip d⟩]
      | _, _, _ => steps) []

/-- The per-record acceptance function stated by the specification for
the executor-facing parser: accept exactly the records carrying all
three fields, normalising the fields. -/
def record_step_fa (raw : Str) : Option PlanStep :=
  match actionOf raw, fileOf raw, descrOf raw with
  | some a, some f, some d => some ⟨lower (strip a), strip f, strip d⟩
  | _, _, _ => none

/-- A parsed step of the generalized parser (derived fields included). -/
structure PlanStepPP where
  action : Str
  file : Str
  descr : Str
  is_component : Bool
  technologies : List Str
  dependencies : List Str
  warnings : List Str
deriving DecidableEq

def ALLOWED_ACTIONS : List Str := [("create".data), ("modify".data), ("delete".data)]

/-- `parse_plan_generalized` from `plan_parsing.py` at its default
`codebase_context=""`: no analyzer, so `is_component_file` is `False`
and the technology/dependency/warning detectors return `[]`; records
whose action is outside `{create, modify, delete}` are dropped. -/
def parse_plan_pp (planText : Str) : List PlanStepPP :=
  (planRecords planText).foldl
    (fun steps raw =>
      match actionOf raw, fileOf raw, descrOf raw with
      | some a0, some f0, some d0 =>
        let a := lower (strip a0)
        if memB a ALLOWED_ACTIONS then
          steps ++ [⟨a, strip f0, strip d0, false, [], [], []⟩]
        else steps
      | _, _, _ => steps) []

/-- The per-record acceptance function stated by the specification for
the generalized parser: all three fields present and the action in the
allowed set. -/
def record_step_pp (raw : Str) : Option PlanStepPP :=
  match actionOf raw, fileOf raw, descrOf raw with
  | some a0, some f0, some d0 =>
    let a := lower (strip a0)
    if memB a ALLOWED_ACTIONS then
      some ⟨a, strip f0, strip d0, false, [], [], []⟩
    else none
  | _, _, _ => none

/-- The embedding of a `PlanStep` into the generalized step shape used
when comparing the two parsers. -/
def toPP (s : PlanStep) : PlanStepPP :=
  ⟨s.action, s.file, s.descr, false, [], [], []⟩

end Plan

/-! ## Embedding of `llm_plan/llm.py` (`self_review_code`) -/

namespace Llm

open PyStr PyDict

/-- Python values as produced by `json.loads` (floats keep their raw
numeric token: the sources never compute with them). -/
inductive PyVal where
  | pynone : PyVal
  | pybool : Bool → PyVal
  | pyint : Int → PyVal
  | pyfloat : Str → PyVal
  | pystr : Str → PyVal
  | pylist : List PyVal → PyVal
  | pydict : List (Str × PyVal) → PyVal

/-- JSON insignificant whitespace. -/
def jsonWs (c : Char) : Bool := c = ' ' || c = '\t' || c = '\n' || c = '\r'

def jsonDigit (c : Char) : Bool := c.isDigit

/-- Parse the escape after a backslash inside a JSON string. -/
def jsonEscape (s : Str) : Option (Char × Str) :=
  match s with
  | [] => Option.none
  | c :: t =>
    if c = Char.ofNat 34 then some (Char.ofNat 34, t)
    else if c = Char.ofNat 92 then some (Char.ofNat 92, t)
    else if c = '/' then some ('/', t)
    else if c = 'b' then some (Char.ofNat 8, t)
    else if c = 'f' then some (Char.ofNat 12, t)
    else if c = 'n' then some ('\n', t)
    else if c = 'r' then some ('\r', t)
    else if c = 't' then some ('\t', t)
    else if c = 'u' then
      match t with
      | h1 :: h2 :: h3 :: h4 :: t4 =>
        let hex? (h : Char) : Option Nat :=
          if h.isDigit then some (h.toNat - 48)
          else if 'a' ≤ h && h ≤ 'f' then some (h.toNat - 87)
          else if 'A' ≤ h && h ≤ 'F' then some (h.toNat - 55)
          else Option.none
        match hex? h1, hex? h2, hex? h3, hex? h4 with
        | some a, some b, some c', some d =>
          some (Char.ofNat (((a * 16 + b) * 16 + c') * 16 + d), t4)
        | _, _, _, _ => Option.none
      | _ => Option.none
    else Option.none

/-- Parse a JSON string body after the opening quote. -/
def jsonStringBody (fuel : Nat) (acc : Str) (s : Str) : Option (Str × Str) :=
  match fuel, s with
  | 0, _ => Option.none
  | _, [] => Option.none
  | fuel + 1, c :: t =>
    if c = Char.ofNat 34 then some (acc.reverse, t)
    else if c = Char.ofNat 92 then
      match jsonEscape t with
      | some (e, t2) => jsonStringBody fuel (e :: acc) t2
      | Option.none => Option.none
    else if c.toNat < 32 then Option.none
    else jsonStringBody fuel (c :: acc) t

/-- Parse a strict JSON number; integers become `pyint`, fractional or
exponent forms keep their raw token as `pyfloat`. -/
def jsonNumber (s : Str) : Option (PyVal × Str) :=
  let (neg, s1) := if hasPre ("-".data) s then (true, s.drop 1) else (false, s)
  let intPart := s1.takeWhile jsonDigit
  let s2 := s1.dropWhile jsonDigit
  if intPart.isEmpty then Option.none
  else if intPart.length > 1 && intPart.headD '0' = '0' then Option.none
  else
    let (frac, s3) :=
      if hasPre (".".data) s2 then
        let f := (s2.drop 1).takeWhile jsonDigit
        if f.isEmpty then ((Option.none : Option Str), s2)
        else (some f, (s2.drop 1).dropWhile jsonDigit)
      else (Option.none, s2)
    let (expn, s4) :=
      if hasPre ("e".data) s3 || hasPre ("E".data) s3 then
        let s3' := s3.drop 1
        let (sgn, s3'') :=
          if hasPre ("+".data) s3' || hasPre ("-".data) s3' then (s3'.take 1, s3'.drop 1)
          else (([] : Str), s3')
        let e := s3''.takeWhile jsonDigit
        if e.isEmpty then ((Option.none : Option Str), s3)
        else (some (s3.take 1 ++ sgn ++ e), s3''.dropWhile jsonDigit)
      else (Option.none, s3)
    match frac, expn with
    | Option.none, Option.none =>
      let mag : Int := Int.ofNat (Nat.ofDigits 10 ((intPart.map (fun c => c.toNat - 48)).reverse))
      some (.pyint (if neg then -mag else mag), s2)
    | _, _ =>
      let raw := (if neg then ("-".data) else []) ++ intPart
        ++ (match frac with | some f => (".".data) ++ f | Option.none => [])
        ++ (match expn with | some e => e | Option.none => [])
      some (.pyfloat raw, s4)

mutual

/-- Parse one JSON value (leading whitespace already consumed). -/
def jsonValue (fuel : Nat) (s : Str) : Option (PyVal × Str) :=
  match fuel with
  | 0 => Option.none
  | fuel + 1 =>
    match s with
    | [] => Option.none
    | c :: t =>
      if c = Char.ofNat 34 then
        (jsonStringBody t.length [] t).map (fun pr => (.pystr pr.1, pr.2))
      else if c = Char.ofNat 123 then
        jsonObject fuel (t.dropWhile jsonWs) []
      else if c = '[' then
        jsonArray fuel (t.dropWhile jsonWs) []
      else if hasPre ("true".data) s then some (.pybool true, s.drop 4)
      else if hasPre ("false".data) s then some (.pybool false, s.drop 5)
      else if hasPre ("null".data) s then some (.pynone, s.drop 4)
      else if hasPre ("NaN".data) s then some (.pyfloat ("NaN".data), s.drop 3)
      else if hasPre ("Infinity".data) s then some (.pyfloat ("Infinity".data), s.drop 8)
      else if hasPre ("-Infinity".data) s then some (.pyfloat ("-Infinity".data), s.drop 9)
      else jsonNumber s

/-- Parse the inside of a JSON object after `{` (whitespace consumed);
duplicate keys keep the first position and the last value, as
`json.loads` does. -/
def jsonObject (fuel : Nat) (s : Str) (acc : List (Str × PyVal)) : Option (PyVal × Str) :=
  match fuel with
  | 0 => Option.none
  | fuel + 1 =>
    match s with
    | [] => Option.none
    | c :: t =>
      if c = Char.ofNat 125 && acc.isEmpty then some (.pydict [], t)
      else if c = Char.ofNat 34 then
        match jsonStringBody t.length [] t with
        | Option.none => Option.none
        | some (k, s1) =>
          match s1.dropWhile jsonWs with
          | ':' :: s2 =>
            match jsonValue fuel (s2.dropWhile jsonWs) with
            | Option.none => Option.none
            | some (v, s3) =>
              let acc' := dSet acc k v
              match s3.dropWhile jsonWs with
              | ',' :: s4 => jsonObject fuel (s4.dropWhile jsonWs) acc'
              | c2 :: s4 =>
                if c2 = Char.ofNat 125 then some (.pydict acc', s4) else Option.none
              | [] => Option.none
          | _ => Option.none
      else Option.none

/-- Parse the inside of a JSON array after `[` (whitespace consumed). -/
def jsonArray (fuel : Nat) (s : Str) (acc : List PyVal) : Option (PyVal × Str) :=
  match fuel with
  | 0 => Option.none
  | fuel + 1 =>
    match s with
    | [] => Option.none
    | c :: t =>
      if c = ']' && acc.isEmpty then some (.pylist [], t)
      else
        match jsonValue fuel s with
        | Option.none => Option.none
        | some (v, s1) =>
          match s1.dropWhile jsonWs with
          | ',' :: s2 => jsonArray fuel (s2.dropWhile jsonWs) (v :: acc)
          | ']' :: s2 => some (.pylist (v :: acc).reverse, s2)
          | _ => Option.none

end

/-- `json.loads`: a whole-input JSON document, `none` on
`JSONDecodeError`. -/
def json_loads (s : Str) : Option PyVal :=
  match jsonValue (s.length + 1) (s.dropWhile jsonWs) with
  | some (v, rest) => if (rest.dropWhile jsonWs).isEmpty then some v else Option.none
  | Option.none => Option.none

/-- The fixed degraded review of the `json.JSONDecodeError` handler in
`self_review_code`. -/
def degraded_parse_review : PyVal :=
  .pydict
    [(("score".data), .pyint 5),
     (("issues".data), .pylist
        [.pydict [(("severity".data), .pystr ("medium".data)),
                  (("description".data), .pystr ("Failed to parse review response".data))]]),
     (("suggestions".data), .pylist []),
     (("confidence".data), .pystr ("low".data)),
     (("should_regenerate".data), .pybool false),
     (("summary".data), .pystr ("Review parsing failed".data))]

/-- The fixed degraded review of the outer `except` handler in
`self_review_code` (the completion call itself failed with message
`e`). -/
def degraded_api_review (e : Str) : PyVal :=
  .pydict
    [(("score".data), .pyint 1),
     (("issues".data), .pylist
        [.pydict [(("severity".data), .pystr ("critical".data)),
                  (("description".data), .pystr (("Review failed: ".data) ++ e))]]),
     (("suggestions".data), .pylist []),
     (("confidence".data), .pystr ("low".data)),
     (("should_regenerate".data), .pybool true),
     (("summary".data), .pystr ("Review process failed".data))]

/-- `self_review_code` from the source, as a function of the external
completion call's outcome (the prompt only feeds that opaque call):
strip the completion text, `json.loads` it, fall back to the fixed
degraded review on a decode error; a failing completion call is caught
by the outer handler.  The function is total: no exception escapes. -/
def self_review_code (completion : Except Str Str) : PyVal :=
  match completion with
  | .error e => degraded_api_review e
  | .ok text =>
    let reviewText := strip text
    match json_loads reviewText with
    | some v => v
    | Option.none => degraded_parse_review

/-- Modelled from the spec: the `ReviewResult` shape of §3 (a dict with
an integer score, issue/suggestion lists, a confidence level, a
regenerate flag and a summary).  The sources validate nothing beyond
JSON well-formedness; this predicate states what "parses as the
structured ReviewResult shape" means in the claim. -/
def isReviewResultShape (v : PyVal) : Bool :=
  match v with
  | .pydict kvs =>
    (match dGet kvs ("score".data) with | some (.pyint _) => true | _ => false)
    && (match dGet kvs ("issues".data) with | some (.pylist _) => true | _ => false)
    && (match dGet kvs ("suggestions".data) with | some (.pylist _) => true | _ => false)
    && (match dGet kvs ("confidence".data) with
        | some (.pystr c) =>
          memB c [("high".data), ("medium".data), ("low".data)]
        | _ => false)
    && (match dGet kvs ("should_regenerate".data) with | some (.pybool _) => true | _ => false)
    && (match dGet kvs ("summary".data) with | some (.pystr _) => true | _ => false)
  | _ => false

end Llm

/-! ## Embedding of `e2b_sandboxing/sandbox.py` (file deletion) -/

namespace Sandbox

open PyStr PyDict

/-- The sandbox filesystem: a finite map from absolute paths to file
contents. -/
abbrev FS := List (Str × Str)

/-- `os.remove` inside the sandbox: `FileNotFoundError` on a missing
path, otherwise the file is removed. -/
def osRemove (fs : FS) (p : Str) : Except Str FS :=
  if dMem fs p then .ok (fs.filter (fun e => !(e.1 == p)))
  else .error ("FileNotFoundError".data)

/-- `delete_file_from_sandbox` from the source: the code it runs in the
sandbox wraps `os.remove` in `try/except FileNotFoundError: pass`, and
the function inspects no execution result, so no error is raised either
way; the result is the new filesystem. -/
def delete_file_from_sandbox (fs : FS) (p : Str) : Except Str FS :=
  .ok (match osRemove fs p with
       | .ok fs' => fs'
       | .error _ => fs)

end Sandbox

/-! ## Embedding of the two plan executors -/

namespace Exec

open PyStr PyDict Plan

/-- The apostrophe character. -/
def apos : Char := Char.ofNat 39

/-- The backtick character. -/
def btick : Char := Char.ofNat 96

/-- Three backticks. -/
def bt3 : Str := List.replicate 3 btick

/-- `re.sub(r"```[a-z]*", "", s)`: drop each backtick fence together
with its greedy lowercase language tag. -/
def subFences : Nat → Str → Str
  | 0, s => s
  | _ + 1, [] => []
  | fuel + 1, s@(c :: t) =>
    if hasPre bt3 s then
      subFences fuel ((s.drop 3).dropWhile (fun d => 'a' ≤ d && d ≤ 'z'))
    else c :: subFences fuel t

/-- The markdown cleanup of `apply_llm_plan_to_code`:
`if "```" in new_code: re.sub(r"```[a-z]*", "", ...).replace("```", "").strip()`. -/
def strip_markdown_fa (code : Str) : Str :=
  if hasSub bt3 code then
    strip (replace (subFences (code.length + 1) code) bt3 [])
  else code

/-- The external collaborators of `apply_llm_plan_to_code`, indexed by
step position: the generation call, the sandbox write and the
`sandbox.run_code` transport issued by `delete_file_from_sandbox`.
`Except.error e` models the call raising with message `e`. -/
structure LlmEnv where
  gen : Nat → Except Str Str
  write : Nat → Except Str Unit
  runCode : Nat → Except Str Unit

def msgDelete (f : Str) : Str := ("🗑️ Deleting file: ".data) ++ f

def msgApply (f : Str) : Str := ("✅ Applying changes to: ".data) ++ f

def msgFail (f e : Str) : Str :=
  ("❌ Failed to apply change to ".data) ++ f ++ (": ".data) ++ e

def msgUnknown (a f : Str) : Str :=
  ("⚠️ Unknown action ".data) ++ [apos] ++ a ++ [apos]
  ++ (" for file ".data) ++ [apos] ++ f ++ [apos]

/-- The step loop of `apply_llm_plan_to_code`.  The prompt templates
exist in the repository, so `load_prompt_template` succeeds and the
assembled prompt (together with the `current_code` lookup feeding it)
only parameterises the opaque generation call `env.gen`.  The
`try/except` covers the generation call and the write; the delete
branch runs outside it, so a failing `run_code` transport propagates. -/
def applyLlmAux (env : LlmEnv) :
    List PlanStep → Nat → List (Str × Str) → List Str →
    List Str × Except Str (List (Str × Str))
  | [], _, modified, log => (log.reverse, .ok modified)
  | st :: rest, i, modified, log =>
    if st.action == ("create".data) || st.action == ("modify".data) then
      match env.gen i with
      | .ok newCode0 =>
        let newCode := strip_markdown_fa newCode0
        let log1 := msgApply st.file :: log
        match env.write i with
        | .ok _ => applyLlmAux env rest (i + 1) (dSet modified st.file newCode) log1
        | .error e => applyLlmAux env rest (i + 1) modified (msgFail st.file e :: log1)
      | .error e => applyLlmAux env rest (i + 1) modified (msgFail st.file e :: log)
    else if st.action == ("delete".data) then
      let log1 := msgDelete st.file :: log
      match env.runCode i with
      | .ok _ => applyLlmAux env rest (i + 1) modified log1
      | .error e => (log1.reverse, .error e)
    else applyLlmAux env rest (i + 1) modified (msgUnknown st.action st.file :: log)

/-- `apply_llm_plan_to_code` from `plan_file_application.py`: the
emitted progress messages and either the modified-file dict or the
escaped exception. -/
def apply_llm_plan_to_code (env : LlmEnv) (steps : List PlanStep) :
    List Str × Except Str (List (Str × Str)) :=
  applyLlmAux env steps 0 [] []

/-- `str.upper()` (ASCII, which is all the parsed actions contain). -/
def upperStr (s : Str) : Str := s.map Char.toUpper

/-- The markdown cleanup of `apply_plan_steps`: strip an opening
fenced-code line and a closing fence, both anchored. -/
def strip_markdown_pa (code : Str) : Str :=
  let c1 :=
    if hasPre bt3 code then
      let afterTag := (code.drop 3).dropWhile (fun d => 'a' ≤ d && d ≤ 'z')
      match afterTag with
      | '\n' :: t => t
      | _ => code
    else code
  let suf := ("\n".data) ++ bt3
  if hasSuf suf c1 then c1.take (c1.length - 4)
  else if hasSuf (suf ++ ("\n".data)) c1 then c1.take (c1.length - 5) ++ ("\n".data)
  else c1

/-- The external collaborators of `apply_plan_steps`, indexed by step
position: generation, the `sandbox.files.read` of the modify branch,
the sandbox write, and the `run_code` transport of the delete branch. -/
structure PaEnv where
  gen : Nat → Except Str Str
  read : Nat → Except Str Str
  write : Nat → Except Str Unit
  runCode : Nat → Except Str Unit

def paIntro (n : Nat) : Str :=
  ("🔧 Applying ".data) ++ (Nat.repr n).data ++ (" plan steps...\n".data)

def paHeader (n i : Nat) (st : PlanStep) : Str :=
  ("🔧 Step ".data) ++ (Nat.repr (i + 1)).data ++ ("/".data) ++ (Nat.repr n).data
  ++ (": ".data) ++ upperStr st.action ++ (" ".data) ++ [btick]
  ++ ("/workspace/".data) ++ st.file ++ [btick] ++ (" — ".data) ++ st.descr

def paCreated (f : Str) : Str :=
  ("✅ Created ".data) ++ [btick] ++ ("/workspace/".data) ++ f ++ [btick]

def paModified (f : Str) : Str :=
  ("✅ Modified ".data) ++ [btick] ++ ("/workspace/".data) ++ f ++ [btick]

def paDeleted (f : Str) : Str :=
  ("🗑️ Deleted ".data) ++ [btick] ++ ("/workspace/".data) ++ f ++ [btick]

def paUnknown (a f : Str) : Str :=
  ("⚠️ Unknown action ".data) ++ [btick] ++ a ++ [btick]
  ++ (" — skipping ".data) ++ [btick] ++ ("/workspace/".data) ++ f ++ [btick]

def paFailed (f e : Str) : Str :=
  ("❌ Failed to apply step to ".data) ++ [btick] ++ ("/workspace/".data) ++ f
  ++ [btick] ++ (": ".data) ++ e

def paDone : Str := ("\n✅ Plan application completed".data)

/-- The outcome message of one step of `apply_plan_steps`: everything
in the step body runs inside its `try`, so every failing collaborator
call yields the caught-error message for that step. -/
def paOutcome (env : PaEnv) (i : Nat) (st : PlanStep) : Str :=
  if st.action == ("create".data) then
    match env.gen i with
    | .error e => paFailed st.file e
    | .ok _ =>
      match env.write i with
      | .error e => paFailed st.file e
      | .ok _ => paCreated st.file
  else if st.action == ("modify".data) then
    match env.read i with
    | .error e => paFailed st.file e
    | .ok _ =>
      match env.gen i with
      | .error e => paFailed st.file e
      | .ok _ =>
        match env.write i with
        | .error e => paFailed st.file e
        | .ok _ => paModified st.file
  else if st.action == ("delete".data) then
    match env.runCode i with
    | .error e => paFailed st.file e
    | .ok _ => paDeleted st.file
  else paUnknown st.action st.file

/-- The step loop of `apply_plan_steps` (the generator's yields, in
order). -/
def paLoop (env : PaEnv) (n : Nat) : List PlanStep → Nat → List Str
  | [], _ => [paDone]
  | st :: rest, i =>
    paHeader n i st :: paOutcome env i st :: paLoop env n rest (i + 1)

/-- `apply_plan_steps` from `plan_application.py`: the full ordered
yield sequence.  The function is total — every step body is wrapped in
`try/except Exception`, so no exception escapes. -/
def apply_plan_steps (env : PaEnv) (steps : List PlanStep) : List Str :=
  paIntro steps.length :: paLoop env steps.length steps 0

/-- Stated from the spec's executor contract: the progress lines one
step of `apply_llm_plan_to_code` prints (success line before the write,
failure line with the caught error's message). -/
def llm_step_log (env : LlmEnv) (i : Nat) (st : PlanStep) : List Str :=
  if st.action == ("create".data) || st.action == ("modify".data) then
    match env.gen i with
    | .ok _ =>
      match env.write i with
      | .ok _ => [msgApply st.file]
      | .error e => [msgApply st.file, msgFail st.file e]
    | .error e => [msgFail st.file e]
  else if st.action == ("delete".data) then [msgDelete st.file]
  else [msgUnknown st.action st.file]

/-- Stated from the spec's executor contract: the modified-file dict is
exactly the create/modify steps whose generation and write both
succeeded, keyed by target path. -/
def llm_modified (env : LlmEnv) (steps : List PlanStep) : List (Str × Str) :=
  (List.enumFrom 0 steps).foldl
    (fun m pr =>
      if pr.2.action == ("create".data) || pr.2.action == ("modify".data) then
        match env.gen pr.1, env.write pr.1 with
        | .ok raw, .ok _ => PyDict.dSet m pr.2.file (strip_markdown_fa raw)
        | _, _ => m
      else m) []

end Exec

/-! ## The generation–review loop (spec §4.7) -/

namespace Loop

open PyStr

/-- The `ReviewResult` record of spec §3. -/
structure ReviewResult where
  score : Int
  issues : List (Str × Str)
  suggestions : List (Str × Str)
  confidence : Str
  shouldRegenerate : Bool
  summary : Str

/-- The best-candidate update: keep the highest score seen, earliest on
ties. -/
def updBest (best : Option (Str × Int)) (attempt : Str × ReviewResult) : Option (Str × Int) :=
  match best with
  | Option.none => some (attempt.1, attempt.2.score)
  | some (bc, bs) =>
    if attempt.2.score > bs then some (attempt.1, attempt.2.score) else some (bc, bs)

/-- Modelled from the spec: the generation–review state machine of
§4.7.  The loop driver is not under `src/` (the sources there contain
its review collaborator `self_review_code` but no caller); §4.7 fixes
its behaviour: GENERATE, REVIEW, track the best-scoring candidate,
ACCEPT when `shouldRegenerate` is false or the attempt ceiling is
reached, otherwise GENERATE again.  `gen i` is the content produced by
the (successful) generation call of attempt `i` and `rev i c` the
structured review of that attempt; the returned trace lists the
attempts actually performed, so its length is the number of generator
calls. -/
def grLoopAux (gen : Nat → Str) (rev : Nat → Str → ReviewResult) (maxA : Nat) :
    Nat → Nat → Option (Str × Int) → List (Str × ReviewResult) →
    Option (Str × Int) × List (Str × ReviewResult)
  | 0, _, best, trace => (best, trace.reverse)
  | fuel + 1, i, best, trace =>
    let content := gen i
    let r := rev i content
    let best' := updBest best (content, r)
    let trace' := (content, r) :: trace
    if !r.shouldRegenerate || maxA ≤ i + 1 then (best', trace'.reverse)
    else grLoopAux gen rev maxA fuel (i + 1) best' trace'

/-- Modelled from the spec: one full generation–review loop run for one
plan step, with attempt ceiling `maxA` (default 3 in §4.7). -/
def generation_review_loop (gen : Nat → Str) (rev : Nat → Str → ReviewResult)
    (maxA : Nat) : Option (Str × Int) × List (Str × ReviewResult) :=
  grLoopAux gen rev maxA maxA 0 Option.none []

/-- The attempts `i, i+1, ..., i+k-1` with their reviews: each one is
one generator call followed by one review call. -/
def attempts (gen : Nat → Str) (rev : Nat → Str → ReviewResult) (i k : Nat) :
    List (Str × ReviewResult) :=
  (List.range k).map (fun j => (gen (i + j), rev (i + j) (gen (i + j))))

end Loop

/-! ## Concrete inputs used by witnesses and counterexamples -/

namespace Inputs

open Plan

/-- A plan text with one well-formed step whose action tag reads
`CREATE`. -/
def planUpper : Str :=
  ("<step><action>CREATE</action><file>src/x.ts</file><description>add x</description></step>").data

/-- A plan text with one well-formed step whose action tag reads
` Create `. -/
def planSpaced : Str :=
  ("<step><action> Create </action><file> src/x.ts </file><description>add x</description></step>").data

/-- A plan text with one complete step record whose action value is
`rename`, outside `{create, modify, delete}`. -/
def planRename : Str :=
  ("<step><action>rename</action><file>a</file><description>d</description></step>").data

/-- A concrete generator for the loop witness: attempt `j` produces the
decimal digits of `j`. -/
def wgen (j : Nat) : Str := (Nat.repr j).data

/-- A concrete reviewer for the loop witness: scores 4, 7, 5 with the
regenerate flag raised on the first two attempts. -/
def wrev (j : Nat) (_ : Str) : Loop.ReviewResult :=
  ⟨([4, 7, 5] : List Int).getD j 0, [], [], ("high".data),
   ([true, true, false] : List Bool).getD j false, ("ok".data)⟩

/-- A sandbox whose `run_code` transport fails: generation and writes
succeed, while the delete transport raises a connection error. -/
def envBad : Exec.LlmEnv :=
  ⟨fun _ => .ok ("x".data), fun _ => .ok (), fun _ => .error ("ConnectionError".data)⟩

/-- Collaborators for the executor witness: generation fails on the
middle step, everything else succeeds. -/
def envMid : Exec.LlmEnv :=
  ⟨fun i => if i = 1 then .error ("boom".data) else .ok ("code".data),
   fun _ => .ok (), fun _ => .ok ()⟩

/-- The same collaborator behaviour for `apply_plan_steps`. -/
def envMidPa : Exec.PaEnv :=
  ⟨fun i => if i = 1 then .error ("boom".data) else .ok ("code".data),
   fun _ => .ok ("old".data), fun _ => .ok (), fun _ => .ok ()⟩

/-- Three create steps, the middle one doomed to a failing generation
call. -/
def threeSteps : List Plan.PlanStep :=
  [⟨("create".data), ("a.ts".data), ("da".data)⟩,
   ⟨("create".data), ("b.ts".data), ("db".data)⟩,
   ⟨("create".data), ("c.ts".data), ("dc".data)⟩]

/-- A single delete step. -/
def oneDelete : List Plan.PlanStep :=
  [⟨("delete".data), ("a.ts".data), ("drop it".data)⟩]

/-- A file map whose importer is excluded by the inclusion filter (its
path carries the ignore pattern `.test.` and classifies as a test
file) although its import resolves against the known files. -/
def cexDepMap : List (Str × Str) :=
  [(("a.test.ts".data), ("import x from \"./b\"".data)),
   (("b.ts".data), ("".data))]

/-- A file map whose included importer resolves one relative import. -/
def wDepMap : List (Str × Str) :=
  [(("a.ts".data), ("import x from \"./b\"".data)),
   (("b.ts".data), ("".data))]

/-- A 12000-character file content: estimated token count exactly
3000, so the inclusion filter accepts it. -/
def bigC : Str := List.replicate 12000 'a'

/-- Six such files: their blocks together far exceed both configured
per-file ceilings, yet the digest is emitted in full. -/
def bigMap : List (Str × Str) :=
  [(("f1.ts".data), bigC), (("f2.ts".data), bigC), (("f3.ts".data), bigC),
   (("f4.ts".data), bigC), (("f5.ts".data), bigC), (("f6.ts".data), bigC)]

end Inputs

/-! # Theorems -/

/-! ## Shared parser lemmas -/

theorem Plan.parse_fa_eq (t : Str) :
    parse_plan_fa t = (planRecords t).filterMap record_step_fa := by
  have key : ∀ (l : List Str) (acc : List PlanStep),
      l.foldl
        (fun steps raw =>
          match actionOf raw, fileOf raw, descrOf raw with
          | some a, some f, some d =>
            steps ++ [⟨PyStr.lower (PyStr.strip a), PyStr.strip f, PyStr.strip d⟩]
          | _, _, _ => steps) acc
      = acc ++ l.filterMap record_step_fa := by
    intro l
    induction l with
    | nil => intro acc; simp
    | cons r rest ih =>
      intro acc
      simp only [List.foldl_cons, List.filterMap_cons]
      cases ha : actionOf r <;> cases hf : fileOf r <;> cases hd : descrOf r <;>
        simp [record_step_fa, ha, hf, hd, ih, List.append_assoc]
  simpa [parse_plan_fa] using key (planRecords t) []

theorem Plan.pp_body_eq (steps : List PlanStepPP) (raw : Str) :
    (match actionOf raw, fileOf raw, descrOf raw with
     | some a0, some f0, some d0 =>
       let a := PyStr.lower (PyStr.strip a0)
       if PyStr.memB a ALLOWED_ACTIONS then
         steps ++ [⟨a, PyStr.strip f0, PyStr.strip d0, false, [], [], []⟩]
       else steps
     | _, _, _ => steps)
    = match record_step_pp raw with
      | some s => steps ++ [s]
      | Option.none => steps := by
  unfold record_step_pp
  cases actionOf raw with
  | none => rfl
  | some a0 =>
    cases fileOf raw with
    | none => rfl
    | some f0 =>
      cases descrOf raw with
      | none => rfl
      | some d0 =>
        by_cases hm : PyStr.memB (PyStr.lower (PyStr.strip a0)) ALLOWED_ACTIONS = true
        · simp [hm]
        · simp only [Bool.not_eq_true] at hm
          simp [hm]

theorem Plan.parse_pp_eq (t : Str) :
    parse_plan_pp t = (planRecords t).filterMap record_step_pp := by
  have key : ∀ (l : List Str) (acc : List PlanStepPP),
      l.foldl
        (fun steps raw =>
          match actionOf raw, fileOf raw, descrOf raw with
          | some a0, some f0, some d0 =>
            let a := PyStr.lower (PyStr.strip a0)
            if PyStr.memB a ALLOWED_ACTIONS then
              steps ++ [⟨a, PyStr.strip f0, PyStr.strip d0, false, [], [], []⟩]
            else steps
          | _, _, _ => steps) acc
      = acc ++ l.filterMap record_step_pp := by
    intro l
    induction l with
    | nil => intro acc; simp
    | cons r rest ih =>
      intro acc
      simp only [List.foldl_cons, List.filterMap_cons]
      rw [pp_body_eq acc r]
      cases record_step_pp r <;> simp [ih, List.append_assoc]
  simpa [parse_plan_pp] using key (planRecords t) []

theorem Plan.record_pp_of_fa (r : Str) :
    record_step_pp r =
      match record_step_fa r with
      | some s =>
        if PyStr.memB s.action ALLOWED_ACTIONS then some (toPP s) else Option.none
      | Option.none => Option.none := by
  cases ha : actionOf r <;> cases hf : fileOf r <;> cases hd : descrOf r <;>
    simp [record_step_pp, record_step_fa, toPP, ha, hf, hd]

theorem Plan.filterMap_pp_of_fa (l : List Str) :
    l.filterMap record_step_pp =
      ((l.filterMap record_step_fa).filter
        (fun s => PyStr.memB s.action ALLOWED_ACTIONS)).map toPP := by
  induction l with
  | nil => rfl
  | cons r rest ih =>
    simp only [List.filterMap_cons]
    rw [record_pp_of_fa r]
    cases hfa : record_step_fa r with
    | none => simpa using ih
    | some s =>
      by_cases hm : PyStr.memB s.action ALLOWED_ACTIONS = true
      · simp [hm, ih]
      · simp [Bool.not_eq_true] at hm
        simp [hm, ih]

/-! ## C4 -/

/-- C4: the claim says the parser keeps exactly the `<step>` records
with all three fields AND an action in `{create, modify, delete}`.
Counterexample: the executor-facing parser of
`plan_file_application.py` performs no action check — a complete record
with action `rename` yields a step (only the generalized parser of
`plan_parsing.py` drops it). -/
theorem Plan.c4_counterexample :
    parse_plan_fa Inputs.planRename
      = [⟨("rename".data), ("a".data), ("d".data)⟩]
    ∧ PyStr.memB ("rename".data) ALLOWED_ACTIONS = false
    ∧ parse_plan_pp Inputs.planRename = [] := by
  refine ⟨by decide, by decide, by decide⟩

/-- C4 (amended): both parsers yield exactly one step per `<step>`
record that carries all three fields, in record order; the generalized
parser of `plan_parsing.py` additionally drops records whose action is
outside `{create, modify, delete}`, while the executor-facing parser of
`plan_file_application.py` keeps any action value.  The third conjunct
exhibits the exact relation between the two parsers. -/
theorem Plan.c4_parse_characterization :
    (∀ t, parse_plan_fa t = (planRecords t).filterMap record_step_fa)
    ∧ (∀ t, parse_plan_pp t = (planRecords t).filterMap record_step_pp)
    ∧ (∀ t, parse_plan_pp t =
        ((parse_plan_fa t).filter
          (fun s => PyStr.memB s.action ALLOWED_ACTIONS)).map toPP) :=
  ⟨parse_fa_eq, parse_pp_eq, fun t => by
    rw [parse_pp_eq, parse_fa_eq, filterMap_pp_of_fa]⟩

/-! ## C10 -/

theorem Plan.record_fa_some (r : Str) (s : PlanStep) :
    record_step_fa r = some s →
    ∃ a f d, actionOf r = some a ∧ fileOf r = some f ∧ descrOf r = some d ∧
      s = ⟨PyStr.lower (PyStr.strip a), PyStr.strip f, PyStr.strip d⟩ := by
  unfold record_step_fa
  cases ha : actionOf r with
  | none => intro h; exact absurd h (by simp)
  | some a =>
    cases hf : fileOf r with
    | none => intro h; exact absurd h (by simp)
    | some f =>
      cases hd : descrOf r with
      | none => intro h; exact absurd h (by simp)
      | some d =>
        intro h
        refine ⟨a, f, d, rfl, rfl, rfl, ?_⟩
        simpa using h.symm

/-- C10: the parser normalises each accepted record's fields — the
action is stripped and lowercased, file and description are stripped;
in particular action tags `CREATE` and ` Create ` both parse to
`create`. -/
theorem Plan.c10_field_normalization :
    (∀ t s, s ∈ parse_plan_fa t → ∃ r, r ∈ planRecords t ∧ ∃ a f d,
        actionOf r = some a ∧ fileOf r = some f ∧ descrOf r = some d ∧
        s = ⟨PyStr.lower (PyStr.strip a), PyStr.strip f, PyStr.strip d⟩)
    ∧ parse_plan_fa Inputs.planUpper
        = [⟨("create".data), ("src/x.ts".data), ("add x".data)⟩]
    ∧ parse_plan_fa Inputs.planSpaced
        = [⟨("create".data), ("src/x.ts".data), ("add x".data)⟩] := by
  refine ⟨?_, by decide, by decide⟩
  intro t s hs
  rw [parse_fa_eq] at hs
  rcases List.mem_filterMap.1 hs with ⟨r, hr, hfr⟩
  exact ⟨r, hr, record_fa_some r s hfr⟩

/-- Witness for C10's universal part at a concrete plan text. -/
theorem Plan.c10_witness :
    (⟨("create".data), ("src/x.ts".data), ("add x".data)⟩ : PlanStep)
      ∈ parse_plan_fa Inputs.planUpper
    ∧ ∃ r, r ∈ planRecords Inputs.planUpper ∧ ∃ a f d,
        actionOf r = some a ∧ fileOf r = some f ∧ descrOf r = some d ∧
        (⟨("create".data), ("src/x.ts".data), ("add x".data)⟩ : PlanStep)
          = ⟨PyStr.lower (PyStr.strip a), PyStr.strip f, PyStr.strip d⟩ :=
  ⟨by decide, Plan.c10_field_normalization.1 Inputs.planUpper _ (by decide)⟩

/-! ## C9 -/

theorem PyDict.dGet_filter_self (fs : Sandbox.FS) (p : Str) :
    PyDict.dGet (fs.filter (fun e => !(e.1 == p))) p = Option.none := by
  induction fs with
  | nil => rfl
  | cons e t ih =>
    obtain ⟨k, v⟩ := e
    by_cases h : k = p
    · simp [List.filter_cons, h, ih]
    · have hb : ((k, v).1 == p) = false := by simpa using h
      simp [List.filter_cons, hb, PyDict.dGet, h, ih]

/-- C9: sandbox file deletion is total and idempotent — it always
returns without an error, deleting a missing path leaves the
filesystem unchanged, and deleting the same path twice has the same
effect as deleting it once. -/
theorem Sandbox.c9_delete_idempotent_total :
    ∀ (fs : Sandbox.FS) (p : Str),
      (∃ fs2, Sandbox.delete_file_from_sandbox fs p = .ok fs2)
      ∧ (PyDict.dMem fs p = false → Sandbox.delete_file_from_sandbox fs p = .ok fs)
      ∧ (∀ fs2, Sandbox.delete_file_from_sandbox fs p = .ok fs2 →
          Sandbox.delete_file_from_sandbox fs2 p = .ok fs2) := by
  intro fs p
  refine ⟨⟨_, rfl⟩, ?_, ?_⟩
  · intro hmem
    simp [Sandbox.delete_file_from_sandbox, Sandbox.osRemove, hmem]
  · intro fs2 h2
    have hfs2 : fs2 = (match Sandbox.osRemove fs p with
        | .ok fs' => fs'
        | .error _ => fs) := by
      simpa [Sandbox.delete_file_from_sandbox] using h2.symm
    by_cases hmem : PyDict.dMem fs p = true
    · have : fs2 = fs.filter (fun e => !(e.1 == p)) := by
        simpa [Sandbox.osRemove, hmem] using hfs2
      have hnot : PyDict.dMem fs2 p = false := by
        simp [this, PyDict.dMem, PyDict.dGet_filter_self]
      simp [Sandbox.delete_file_from_sandbox, Sandbox.osRemove, hnot]
    · have hmem' : PyDict.dMem fs p = false := by simpa using hmem
      have : fs2 = fs := by simpa [Sandbox.osRemove, hmem'] using hfs2
      simp [Sandbox.delete_file_from_sandbox, Sandbox.osRemove, this, hmem']

/-- Witness for C9 at a concrete filesystem and missing path. -/
theorem Sandbox.c9_witness :
    PyDict.dMem ([((("/workspace/a.ts").data), ("x".data))] : Sandbox.FS) (("/workspace/b.ts").data) = false
    ∧ Sandbox.delete_file_from_sandbox
        ([((("/workspace/a.ts").data), ("x".data))] : Sandbox.FS) (("/workspace/b.ts").data)
      = .ok ([((("/workspace/a.ts").data), ("x".data))] : Sandbox.FS) :=
  ⟨by decide,
   (Sandbox.c9_delete_idempotent_total
     ([((("/workspace/a.ts").data), ("x".data))] : Sandbox.FS)
     (("/workspace/b.ts").data)).2.1 (by decide)⟩

/-! ## C5 -/

/-- C5: the claim says any review output that fails to parse as the
structured `ReviewResult` shape is replaced by the fixed degraded
result.  Counterexample: `self_review_code` only recovers from JSON
decode errors — the valid-JSON completion `[]` is not of the
`ReviewResult` shape, yet it is returned as-is rather than replaced by
the degraded result. -/
theorem Llm.c5_counterexample :
    self_review_code (.ok ("[]".data)) = .pylist []
    ∧ isReviewResultShape (.pylist []) = false
    ∧ self_review_code (.ok ("[]".data)) ≠ degraded_parse_review :=
  ⟨rfl, rfl, fun h => Llm.PyVal.noConfusion h⟩

/-- C5 (amended): whenever the review completion's text fails to parse
as JSON, `self_review_code` returns the fixed degraded result (score 5,
one medium-severity parse-failure issue, empty suggestions, confidence
low, `should_regenerate` false); a failing completion call is caught by
the outer handler and yields the fixed degraded score-1 review.  Both
cases return normally — no exception escapes.  Valid JSON of the wrong
shape is returned unvalidated. -/
theorem Llm.c5_parse_failure_degraded :
    (∀ text, json_loads (PyStr.strip text) = Option.none →
        self_review_code (.ok text) = degraded_parse_review)
    ∧ (∀ e, self_review_code (.error e) = degraded_api_review e) := by
  constructor
  · intro text h
    simp [self_review_code, h]
  · intro e
    rfl

/-- Witness for C5 at a concrete unparsable completion. -/
theorem Llm.c5_witness :
    json_loads (PyStr.strip ("garbage".data)) = Option.none
    ∧ self_review_code (.ok ("garbage".data)) = degraded_parse_review :=
  ⟨rfl, Llm.c5_parse_failure_degraded.1 ("garbage".data) rfl⟩

/-! ## C1 -/

theorem Loop.attempts_succ (gen : Nat → Str) (rev : Nat → Str → ReviewResult) (i k : Nat) :
    attempts gen rev i (k + 1)
      = (gen i, rev i (gen i)) :: attempts gen rev (i + 1) k := by
  unfold attempts
  rw [List.range_succ_eq_map]
  simp only [List.map_cons, Nat.add_zero, List.map_map]
  congr 1
  apply List.map_congr_left
  intro j _
  have h : i + (j + 1) = (i + 1) + j := by omega
  simp [Function.comp, Nat.succ_eq_add_one, h]

theorem Loop.foldBest_spec :
    ∀ (l : List (Str × ReviewResult)) (bc : Str) (bs : Int),
      ∃ c s, List.foldl updBest (some (bc, bs)) l = some (c, s)
        ∧ ((c, s) = (bc, bs) ∨ (c, s) ∈ l.map (fun a => (a.1, a.2.score)))
        ∧ bs ≤ s ∧ ∀ a ∈ l, a.2.score ≤ s := by
  intro l
  induction l with
  | nil =>
    intro bc bs
    exact ⟨bc, bs, rfl, Or.inl rfl, le_refl _, by simp⟩
  | cons a t ih =>
    intro bc bs
    by_cases hgt : a.2.score > bs
    · have hstep : updBest (some (bc, bs)) a = some (a.1, a.2.score) := by
        simp [updBest, hgt]
      rcases ih a.1 a.2.score with ⟨c, s, hfold, hmem, hle, hall⟩
      refine ⟨c, s, ?_, ?_, ?_, ?_⟩
      · simpa [List.foldl_cons, hstep] using hfold
      · rcases hmem with h | h
        · exact Or.inr (by rw [List.map_cons, h]; exact List.mem_cons_self _ _)
        · exact Or.inr (by simp only [List.map_cons, List.mem_cons]; exact Or.inr h)
      · omega
      · intro x hx
        rcases List.mem_cons.1 hx with h | h
        · subst h; omega
        · exact hall x h
    · have hstep : updBest (some (bc, bs)) a = some (bc, bs) := by
        simp [updBest, hgt]
      rcases ih bc bs with ⟨c, s, hfold, hmem, hle, hall⟩
      refine ⟨c, s, ?_, ?_, hle, ?_⟩
      · simpa [List.foldl_cons, hstep] using hfold
      · rcases hmem with h | h
        · exact Or.inl h
        · exact Or.inr (by simp only [List.map_cons, List.mem_cons]; exact Or.inr h)
      · intro x hx
        rcases List.mem_cons.1 hx with h | h
        · subst h; omega
        · exact hall x h

theorem Loop.grLoopAux_spec (gen : Nat → Str) (rev : Nat → Str → ReviewResult) (maxA : Nat) :
    ∀ (fuel i : Nat) (best : Option (Str × Int)) (trace : List (Str × ReviewResult)),
      fuel + i = maxA → 1 ≤ fuel →
      ∃ k, 1 ≤ k ∧ k ≤ fuel
        ∧ (grLoopAux gen rev maxA fuel i best trace).2
            = trace.reverse ++ attempts gen rev i k
        ∧ (grLoopAux gen rev maxA fuel i best trace).1
            = List.foldl updBest best (attempts gen rev i k)
        ∧ (∀ j, j + 1 < k → (rev (i + j) (gen (i + j))).shouldRegenerate = true)
        ∧ ((rev (i + k - 1) (gen (i + k - 1))).shouldRegenerate = false ∨ i + k = maxA) := by
  intro fuel
  induction fuel with
  | zero => intro i best trace _ hf; omega
  | succ f ih =>
    intro i best trace hfi _
    by_cases hstop :
        (!(rev i (gen i)).shouldRegenerate || decide (maxA ≤ i + 1)) = true
    · have heval : grLoopAux gen rev maxA (f + 1) i best trace
          = (updBest best (gen i, rev i (gen i)),
             ((gen i, rev i (gen i)) :: trace).reverse) := by
        simp [grLoopAux, hstop]
      have hatt : attempts gen rev i 1 = [(gen i, rev i (gen i))] := by
        have h1 : List.range 1 = [0] := rfl
        simp [attempts, h1]
      refine ⟨1, le_refl 1, by omega, ?_, ?_, by omega, ?_⟩
      · rw [heval, hatt]
        simp
      · rw [heval, hatt]
        simp
      · by_cases hreg : (rev i (gen i)).shouldRegenerate = false
        · exact Or.inl (by simpa using hreg)
        · have hre : (rev i (gen i)).shouldRegenerate = true := by
            cases h : (rev i (gen i)).shouldRegenerate
            · exact absurd h hreg
            · rfl
          have hle : maxA ≤ i + 1 := by
            simp only [hre, Bool.not_true, Bool.false_or, decide_eq_true_eq] at hstop
            exact hstop
          exact Or.inr (by omega)
    · have hstop' := hstop
      simp only [Bool.or_eq_true, Bool.not_eq_true', decide_eq_true_eq, not_or] at hstop'
      obtain ⟨h1, h2⟩ := hstop'
      have hreg : (rev i (gen i)).shouldRegenerate = true := by
        cases h : (rev i (gen i)).shouldRegenerate
        · exact absurd h h1
        · rfl
      have hcond : (rev i (gen i)).shouldRegenerate = true ∧ i + 1 < maxA :=
        ⟨hreg, by omega⟩
      have hf1 : 1 ≤ f := by omega
      have heval : grLoopAux gen rev maxA (f + 1) i best trace
          = grLoopAux gen rev maxA f (i + 1)
              (updBest best (gen i, rev i (gen i)))
              ((gen i, rev i (gen i)) :: trace) := by
        simp [grLoopAux, hstop]
      rcases ih (i + 1) (updBest best (gen i, rev i (gen i)))
          ((gen i, rev i (gen i)) :: trace) (by omega) hf1 with
        ⟨k', hk1, hkle, htr, hbest, hretry, hlast⟩
      refine ⟨k' + 1, by omega, by omega, ?_, ?_, ?_, ?_⟩
      · rw [heval, htr, attempts_succ]
        simp [List.append_assoc]
      · rw [heval, hbest, attempts_succ]
        simp [List.foldl_cons]
      · intro j hj
        cases j with
        | zero => simpa using hcond.1
        | succ j' =>
          have := hretry j' (by omega)
          have he : (i + 1) + j' = i + (j' + 1) := by omega
          rwa [he] at this
      · have he1 : (i + 1) + k' - 1 = i + (k' + 1) - 1 := by omega
        have he2 : (i + 1) + k' = i + (k' + 1) := by omega
        rwa [he1, he2] at hlast

/-- C1: for every create/modify step, the generation–review loop of
§4.7 calls the generator at most the attempt ceiling `maxA` (default 3)
times — the trace of performed attempts is exactly `attempts gen rev 0
k` for some `1 ≤ k ≤ maxA` — retries exactly when the review's
`shouldRegenerate` flag is true and the ceiling is not yet reached
(every non-final attempt has the flag raised, and the final attempt
either has it lowered or sits at the ceiling), and the accepted
content is one whose review score is the maximum observed among all
attempts. -/
theorem Loop.c1_generation_review_loop (gen : Nat → Str)
    (rev : Nat → Str → ReviewResult) (maxA : Nat) (hA : 1 ≤ maxA) :
    ∃ k, 1 ≤ k ∧ k ≤ maxA
      ∧ (generation_review_loop gen rev maxA).2 = attempts gen rev 0 k
      ∧ (∀ j, j + 1 < k → (rev j (gen j)).shouldRegenerate = true)
      ∧ ((rev (k - 1) (gen (k - 1))).shouldRegenerate = false ∨ k = maxA)
      ∧ ∃ bc bs, (generation_review_loop gen rev maxA).1 = some (bc, bs)
          ∧ (bc, bs) ∈ (attempts gen rev 0 k).map (fun a => (a.1, a.2.score))
          ∧ ∀ a ∈ attempts gen rev 0 k, a.2.score ≤ bs := by
  rcases grLoopAux_spec gen rev maxA maxA 0 Option.none [] (by omega) hA with
    ⟨k, hk1, hkle, htr, hbest, hretry, hlast⟩
  refine ⟨k, hk1, hkle, ?_, ?_, ?_, ?_⟩
  · simpa [generation_review_loop] using htr
  · intro j hj
    simpa using hretry j hj
  · simpa using hlast
  · obtain ⟨k0, rfl⟩ : ∃ k0, k = k0 + 1 := ⟨k - 1, by omega⟩
    rw [attempts_succ]
    have hstart : List.foldl updBest (Option.none : Option (Str × Int))
        ((gen 0, rev 0 (gen 0)) :: attempts gen rev 1 k0)
        = List.foldl updBest (some (gen 0, (rev 0 (gen 0)).score))
            (attempts gen rev 1 k0) := by
      simp [List.foldl_cons, updBest]
    rcases foldBest_spec (attempts gen rev 1 k0) (gen 0) (rev 0 (gen 0)).score with
      ⟨c, s, hfold, hmem, hle, hall⟩
    refine ⟨c, s, ?_, ?_, ?_⟩
    · unfold generation_review_loop
      rw [hbest, attempts_succ, hstart, hfold]
    · rcases hmem with h | h
      · simp only [List.map_cons, List.mem_cons]
        exact Or.inl h
      · simp only [List.map_cons, List.mem_cons]
        exact Or.inr h
    · intro a ha
      rcases List.mem_cons.1 ha with h | h
      · subst h; exact hle
      · exact hall a h

/-! ## C3 -/

theorem PyDict.mem_dSet {α : Type} (m : List (Str × α)) (k : Str) (v : α) :
    ∀ x, x ∈ PyDict.dSet m k v → x = (k, v) ∨ x ∈ m := by
  induction m with
  | nil => intro x hx; simpa [PyDict.dSet] using hx
  | cons e t ih =>
    obtain ⟨k', v'⟩ := e
    intro x hx
    by_cases h : k' = k
    · rw [PyDict.dSet, if_pos h] at hx
      rcases List.mem_cons.1 hx with h1 | h1
      · exact Or.inl h1
      · exact Or.inr (List.mem_cons_of_mem _ h1)
    · rw [PyDict.dSet, if_neg h] at hx
      rcases List.mem_cons.1 hx with h1 | h1
      · exact Or.inr (h1 ▸ List.mem_cons_self _ _)
      · rcases ih x h1 with h2 | h2
        · exact Or.inl h2
        · exact Or.inr (List.mem_cons_of_mem _ h2)

theorem Exec.paLoop_eq (env : PaEnv) (n : Nat) :
    ∀ (steps : List Plan.PlanStep) (i : Nat),
      paLoop env n steps i
        = (List.enumFrom i steps).flatMap
            (fun pr => [paHeader n pr.1 pr.2, paOutcome env pr.1 pr.2]) ++ [paDone] := by
  intro steps
  induction steps with
  | nil => intro i; simp [paLoop]
  | cons st rest ih =>
    intro i
    simp [paLoop, List.enumFrom, ih (i + 1)]

theorem Exec.applyLlmAux_ok (env : LlmEnv) (hrc : ∀ i, env.runCode i = .ok ()) :
    ∀ (rest : List Plan.PlanStep) (i : Nat) (modified : List (Str × Str)) (log : List Str),
      applyLlmAux env rest i modified log
        = (log.reverse
            ++ (List.enumFrom i rest).flatMap (fun pr => llm_step_log env pr.1 pr.2),
           .ok ((List.enumFrom i rest).foldl
             (fun m pr =>
               if pr.2.action == ("create".data) || pr.2.action == ("modify".data) then
                 match env.gen pr.1, env.write pr.1 with
                 | .ok raw, .ok _ => PyDict.dSet m pr.2.file (strip_markdown_fa raw)
                 | _, _ => m
               else m) modified)) := by
  intro rest
  induction rest with
  | nil => intro i modified log; simp [applyLlmAux]
  | cons st t ih =>
    intro i modified log
    by_cases hcm : st.action = ("create".data) ∨ st.action = ("modify".data)
    · have hb : (st.action == ("create".data) || st.action == ("modify".data)) = true := by
        rcases hcm with h | h <;> simp [h]
      cases hg : env.gen i with
      | ok raw =>
        cases hw : env.write i with
        | ok u =>
          simp [applyLlmAux, hb, hcm, hg, hw, ih, llm_step_log, List.enumFrom,
            List.append_assoc]
        | error e =>
          simp [applyLlmAux, hb, hcm, hg, hw, ih, llm_step_log, List.enumFrom,
            List.append_assoc]
      | error e =>
        simp [applyLlmAux, hb, hcm, hg, ih, llm_step_log, List.enumFrom, List.append_assoc]
    · have hnc : st.action ≠ ("create".data) := fun h => hcm (Or.inl h)
      have hnm : st.action ≠ ("modify".data) := fun h => hcm (Or.inr h)
      have hb : (st.action == ("create".data) || st.action == ("modify".data)) = false := by
        simp [beq_eq_false_iff_ne, hnc, hnm]
      by_cases hd : st.action = ("delete".data)
      · have hbd : (st.action == ("delete".data)) = true := by simp [hd]
        simp [applyLlmAux, hb, hbd, hcm, hd, hrc i, ih, llm_step_log, List.enumFrom,
          List.append_assoc]
      · have hbd : (st.action == ("delete".data)) = false := by
          simp [beq_eq_false_iff_ne, hd]
        simp [applyLlmAux, hb, hbd, hcm, hd, ih, llm_step_log, List.enumFrom,
          List.append_assoc]

theorem Exec.applyLlmAux_modified (env : LlmEnv) :
    ∀ (rest : List Plan.PlanStep) (i : Nat) (modified : List (Str × Str))
      (log L : List Str) (m : List (Str × Str)),
      applyLlmAux env rest i modified log = (L, .ok m) →
      ∀ x, x ∈ m → x ∈ modified ∨
        ∃ j st, rest.get? j = some st ∧ x.1 = st.file
          ∧ (st.action = ("create".data) ∨ st.action = ("modify".data))
          ∧ ∃ raw, env.gen (i + j) = .ok raw ∧ env.write (i + j) = .ok ()
              ∧ x.2 = strip_markdown_fa raw := by
  intro rest
  induction rest with
  | nil =>
    intro i modified log L m h x hx
    simp only [applyLlmAux, Prod.mk.injEq] at h
    rcases h with ⟨-, h2⟩
    have hm : modified = m := by
      cases h2
      rfl
    exact Or.inl (hm ▸ hx)
  | cons st t ih =>
    intro i modified log L m h x hx
    by_cases hcm : st.action = ("create".data) ∨ st.action = ("modify".data)
    · have hb : (st.action == ("create".data) || st.action == ("modify".data)) = true := by
        rcases hcm with h1 | h1 <;> simp [h1]
      cases hg : env.gen i with
      | ok raw =>
        cases hw : env.write i with
        | ok u =>
          simp only [applyLlmAux, hb, if_pos rfl, hg, hw] at h
          rcases ih (i + 1) _ _ L m h x hx with hin | ⟨j, st', hj, hfile, hact', raw', hgj, hwj, hx2⟩
          · rcases PyDict.mem_dSet modified st.file (strip_markdown_fa raw) x hin with h1 | h1
            · refine Or.inr ⟨0, st, rfl, ?_, hcm, raw, ?_, ?_, ?_⟩
              · rw [h1]
              · simpa using hg
              · simpa using hw
              · rw [h1]
            · exact Or.inl h1
          · refine Or.inr ⟨j + 1, st', by simpa using hj, hfile, hact', raw', ?_, ?_, hx2⟩
            · rw [show i + (j + 1) = (i + 1) + j from by omega]
              exact hgj
            · rw [show i + (j + 1) = (i + 1) + j from by omega]
              exact hwj
        | error e =>
          simp only [applyLlmAux, hb, if_pos rfl, hg, hw] at h
          rcases ih (i + 1) _ _ L m h x hx with hin | ⟨j, st', hj, hfile, hact', raw', hgj, hwj, hx2⟩
          · exact Or.inl hin
          · refine Or.inr ⟨j + 1, st', by simpa using hj, hfile, hact', raw', ?_, ?_, hx2⟩
            · rw [show i + (j + 1) = (i + 1) + j from by omega]
              exact hgj
            · rw [show i + (j + 1) = (i + 1) + j from by omega]
              exact hwj
      | error e =>
        simp only [applyLlmAux, hb, if_pos rfl, hg] at h
        rcases ih (i + 1) _ _ L m h x hx with hin | ⟨j, st', hj, hfile, hact', raw', hgj, hwj, hx2⟩
        · exact Or.inl hin
        · refine Or.inr ⟨j + 1, st', by simpa using hj, hfile, hact', raw', ?_, ?_, hx2⟩
          · rw [show i + (j + 1) = (i + 1) + j from by omega]
            exact hgj
          · rw [show i + (j + 1) = (i + 1) + j from by omega]
            exact hwj
    · have hnc : st.action ≠ ("create".data) := fun h1 => hcm (Or.inl h1)
      have hnm : st.action ≠ ("modify".data) := fun h1 => hcm (Or.inr h1)
      have hb : (st.action == ("create".data) || st.action == ("modify".data)) = false := by
        simp [beq_eq_false_iff_ne, hnc, hnm]
      by_cases hd : st.action = ("delete".data)
      · have hbd : (st.action == ("delete".data)) = true := by simp [hd]
        cases hrcv : env.runCode i with
        | ok u =>
          simp only [applyLlmAux, hb, hbd, hrcv, Bool.false_eq_true, if_false, if_true] at h
          rcases ih (i + 1) _ _ L m h x hx with hin | ⟨j, st', hj, hfile, hact', raw', hgj, hwj, hx2⟩
          · exact Or.inl hin
          · refine Or.inr ⟨j + 1, st', by simpa using hj, hfile, hact', raw', ?_, ?_, hx2⟩
            · rw [show i + (j + 1) = (i + 1) + j from by omega]
              exact hgj
            · rw [show i + (j + 1) = (i + 1) + j from by omega]
              exact hwj
        | error e =>
          simp [applyLlmAux, hb, hbd, hrcv] at h
      · have hbd : (st.action == ("delete".data)) = false := by
          simp [beq_eq_false_iff_ne, hd]
        simp only [applyLlmAux, hb, hbd, Bool.false_eq_true, if_false] at h
        rcases ih (i + 1) _ _ L m h x hx with hin | ⟨j, st', hj, hfile, hact', raw', hgj, hwj, hx2⟩
        · exact Or.inl hin
        · refine Or.inr ⟨j + 1, st', by simpa using hj, hfile, hact', raw', ?_, ?_, hx2⟩
          · rw [show i + (j + 1) = (i + 1) + j from by omega]
            exact hgj
          · rw [show i + (j + 1) = (i + 1) + j from by omega]
            exact hwj

/-- C3: the claim says no exception escapes the apply operation.
Counterexample: in `apply_llm_plan_to_code` the delete branch runs
outside the per-step `try/except`, so a `sandbox.run_code` transport
failure while deleting propagates out of the function. -/
theorem Exec.c3_counterexample :
    apply_llm_plan_to_code Inputs.envBad Inputs.oneDelete
      = ([msgDelete ("a.ts".data)], .error ("ConnectionError".data)) := rfl

/-- C3 (amended): `apply_plan_steps` is fault-isolating — it is total,
yields a header and an outcome line for every step in order, and a
failing generation call is recorded as the caught error's message for
its step without aborting the rest.  `apply_llm_plan_to_code` behaves
the same for generation and write failures, and its modified-file dict
contains exactly the create/modify steps whose generation and write
both succeeded (deletes are never recorded); however a sandbox
transport failure in its delete branch propagates. -/
theorem Exec.c3_fault_isolation :
    (∀ (env : PaEnv) (steps : List Plan.PlanStep),
        apply_plan_steps env steps
          = paIntro steps.length
            :: ((List.enumFrom 0 steps).flatMap
                  (fun pr => [paHeader steps.length pr.1 pr.2, paOutcome env pr.1 pr.2])
                ++ [paDone]))
    ∧ (∀ (env : PaEnv) (i : Nat) (st : Plan.PlanStep) (e : Str),
        st.action = ("create".data) → env.gen i = .error e →
        paOutcome env i st = paFailed st.file e)
    ∧ (∀ (env : LlmEnv), (∀ i, env.runCode i = .ok ()) →
        ∀ steps, apply_llm_plan_to_code env steps
          = ((List.enumFrom 0 steps).flatMap (fun pr => llm_step_log env pr.1 pr.2),
             .ok (llm_modified env steps)))
    ∧ (∀ (env : LlmEnv) (steps : List Plan.PlanStep) (L : List Str) (m : List (Str × Str)),
        apply_llm_plan_to_code env steps = (L, .ok m) →
        ∀ x, x ∈ m → ∃ j st, steps.get? j = some st ∧ x.1 = st.file
          ∧ (st.action = ("create".data) ∨ st.action = ("modify".data))
          ∧ ∃ raw, env.gen j = .ok raw ∧ env.write j = .ok ()
              ∧ x.2 = strip_markdown_fa raw) := by
  refine ⟨?_, ?_, ?_, ?_⟩
  · intro env steps
    rw [apply_plan_steps, paLoop_eq]
  · intro env i st e hact hgen
    simp [paOutcome, hact, hgen]
  · intro env hrc steps
    have h := applyLlmAux_ok env hrc steps 0 [] []
    simpa [apply_llm_plan_to_code, llm_modified] using h
  · intro env steps L m h x hx
    rcases applyLlmAux_modified env steps 0 [] [] L m h x hx with hin | ⟨j, st, hj, hfile, hact, raw, hg, hw, hx2⟩
    · exact absurd hin (List.not_mem_nil x)
    · exact ⟨j, st, hj, hfile, hact, raw, by simpa using hg, by simpa using hw, hx2⟩

/-- Witness for C3: three create steps, the middle generation call
fails; the executor still logs and attempts every step. -/
theorem Exec.c3_witness :
    apply_llm_plan_to_code Inputs.envMid Inputs.threeSteps
      = ((List.enumFrom 0 Inputs.threeSteps).flatMap
           (fun pr => llm_step_log Inputs.envMid pr.1 pr.2),
         .ok (llm_modified Inputs.envMid Inputs.threeSteps)) :=
  Exec.c3_fault_isolation.2.2.1 Inputs.envMid (fun _ => rfl) Inputs.threeSteps

/-! ## Shared lemmas on the stable priority sort -/

theorem FilePre.mem_insByScore (x y : Str × Str) (l : List (Str × Str)) :
    y ∈ FilePre.insByScore x l ↔ y = x ∨ y ∈ l := by
  induction l with
  | nil => simp [FilePre.insByScore]
  | cons z t ih =>
    unfold FilePre.insByScore
    by_cases h : FilePre.get_priority_score x.1 ≤ FilePre.get_priority_score z.1
    · rw [if_pos h]
      simp [or_comm, or_left_comm]
    · rw [if_neg h]
      simp only [List.mem_cons, ih]
      tauto

theorem FilePre.mem_sorted_files (m : List (Str × Str)) (x : Str × Str) :
    x ∈ FilePre.sorted_files m ↔ x ∈ m := by
  induction m with
  | nil => simp [FilePre.sorted_files]
  | cons z t ih =>
    simp [FilePre.sorted_files, FilePre.mem_insByScore, ih]

theorem FilePre.filter_insByScore (x : Str × Str) (l : List (Str × Str)) (k : Nat) :
    (FilePre.insByScore x l).filter (fun y => FilePre.get_priority_score y.1 == k)
      = if FilePre.get_priority_score x.1 == k
        then x :: l.filter (fun y => FilePre.get_priority_score y.1 == k)
        else l.filter (fun y => FilePre.get_priority_score y.1 == k) := by
  induction l with
  | nil =>
    by_cases hx : (FilePre.get_priority_score x.1 == k) = true
    · simp [FilePre.insByScore, List.filter, hx]
    · have hx' : (FilePre.get_priority_score x.1 == k) = false := by simpa using hx
      simp [FilePre.insByScore, List.filter, hx']
  | cons z t ih =>
    unfold FilePre.insByScore
    by_cases hle : FilePre.get_priority_score x.1 ≤ FilePre.get_priority_score z.1
    · rw [if_pos hle]
      by_cases hx : (FilePre.get_priority_score x.1 == k) = true
      · simp [List.filter_cons, hx]
      · have hx' : (FilePre.get_priority_score x.1 == k) = false := by
          simpa using hx
        simp [List.filter_cons, hx']
    · rw [if_neg hle]
      have hzx : FilePre.get_priority_score z.1 < FilePre.get_priority_score x.1 := by
        omega
      by_cases hx : (FilePre.get_priority_score x.1 == k) = true
      · have hxk : FilePre.get_priority_score x.1 = k := by simpa using hx
        have hz : (FilePre.get_priority_score z.1 == k) = false := by
          have : FilePre.get_priority_score z.1 ≠ k := by omega
          simp [this]
        simp [List.filter_cons, hz, ih, hx]
      · have hx' : (FilePre.get_priority_score x.1 == k) = false := by simpa using hx
        by_cases hz : (FilePre.get_priority_score z.1 == k) = true
        · simp [List.filter_cons, hz, ih, hx']
        · have hz' : (FilePre.get_priority_score z.1 == k) = false := by simpa using hz
          simp [List.filter_cons, hz', ih, hx']

theorem FilePre.filter_sorted_files (m : List (Str × Str)) (k : Nat) :
    (FilePre.sorted_files m).filter (fun y => FilePre.get_priority_score y.1 == k)
      = m.filter (fun y => FilePre.get_priority_score y.1 == k) := by
  induction m with
  | nil => rfl
  | cons z t ih =>
    rw [FilePre.sorted_files, FilePre.filter_insByScore]
    by_cases hz : (FilePre.get_priority_score z.1 == k) = true
    · simp [List.filter_cons, hz, ih]
    · have hz' : (FilePre.get_priority_score z.1 == k) = false := by simpa using hz
      simp [List.filter_cons, hz', ih]

/-! ## C8 -/

/-- C8: the priority sort is stable — two included files with equal
classification priority keep their input order among the file blocks
of the compiled digest (`file_blocks` is the block sequence joined into
the digest). -/
theorem FilePre.c8_stable_priority_order
    (l1 l2 l3 : List (Str × Str)) (a b : Str × Str)
    (hpri : FilePre.get_priority_score a.1 = FilePre.get_priority_score b.1)
    (ha : FilePre.should_include_file a.1 a.2 = true)
    (hb : FilePre.should_include_file b.1 b.2 = true) :
    List.Sublist [FilePre.build_file_block a.1 a.2, FilePre.build_file_block b.1 b.2]
      (FilePre.file_blocks (l1 ++ a :: l2 ++ b :: l3)) := by
  classical
  set m := l1 ++ a :: l2 ++ b :: l3 with hm
  have hpa : (FilePre.get_priority_score a.1 == FilePre.get_priority_score a.1) = true := by
    simp
  have hpb : (FilePre.get_priority_score b.1 == FilePre.get_priority_score a.1) = true := by
    simp [hpri]
  have hfil : m.filter (fun y => FilePre.get_priority_score y.1 == FilePre.get_priority_score a.1)
      = l1.filter (fun y => FilePre.get_priority_score y.1 == FilePre.get_priority_score a.1)
        ++ a :: (l2.filter (fun y => FilePre.get_priority_score y.1 == FilePre.get_priority_score a.1)
        ++ b :: l3.filter (fun y => FilePre.get_priority_score y.1 == FilePre.get_priority_score a.1)) := by
    simp [hm, List.filter_append, List.filter_cons, hpa, hpb]
  have hsub1 : List.Sublist [a, b]
      (m.filter (fun y => FilePre.get_priority_score y.1 == FilePre.get_priority_score a.1)) := by
    rw [hfil]
    refine List.Sublist.trans ?_ (List.sublist_append_right _ _)
    refine List.Sublist.cons₂ a ?_
    refine List.Sublist.trans ?_ (List.sublist_append_right _ _)
    exact List.Sublist.cons₂ b (List.nil_sublist _)
  have hsub2 : List.Sublist [a, b] (FilePre.sorted_files m) := by
    have h1 : List.Sublist [a, b]
        ((FilePre.sorted_files m).filter
          (fun y => FilePre.get_priority_score y.1 == FilePre.get_priority_score a.1)) := by
      rw [FilePre.filter_sorted_files]
      exact hsub1
    exact h1.trans (List.filter_sublist _)
  have hsub3 : List.Sublist [a, b] (FilePre.included_files m) := by
    have h2 := hsub2.filter (fun pc => FilePre.should_include_file pc.1 pc.2)
    rw [List.filter_cons, List.filter_cons] at h2
    simp only [ha, hb, if_pos] at h2
    exact h2
  have hsub4 := hsub3.map (fun pc => FilePre.build_file_block pc.1 pc.2)
  simpa [FilePre.file_blocks] using hsub4

set_option maxRecDepth 100000 in
/-- Witness for C8 at two equal-priority source files. -/
theorem FilePre.c8_witness :
    List.Sublist
      [FilePre.build_file_block ("a.ts".data) ("x".data),
       FilePre.build_file_block ("b.ts".data) ("y".data)]
      (FilePre.file_blocks
        ([] ++ (("a.ts".data), ("x".data)) :: [] ++ (("b.ts".data), ("y".data)) :: [])) :=
  FilePre.c8_stable_priority_order [] [] []
    ((("a.ts".data), ("x".data))) ((("b.ts".data), ("y".data)))
    (by decide) (by decide) (by decide)

/-! ## C6 -/

theorem PyDict.dGet_dSet_self {α : Type} (m : List (Str × α)) (k : Str) (v : α) :
    PyDict.dGet (PyDict.dSet m k v) k = some v := by
  induction m with
  | nil => simp [PyDict.dSet, PyDict.dGet]
  | cons e t ih =>
    obtain ⟨k', v'⟩ := e
    by_cases h : k' = k
    · simp [PyDict.dSet, h, PyDict.dGet]
    · simp [PyDict.dSet, h, PyDict.dGet, ih]

theorem PyDict.dGet_dSet_ne {α : Type} (m : List (Str × α)) (k q : Str) (v : α)
    (h : k ≠ q) : PyDict.dGet (PyDict.dSet m k v) q = PyDict.dGet m q := by
  induction m with
  | nil => simp [PyDict.dSet, PyDict.dGet, h]
  | cons e t ih =>
    obtain ⟨k', v'⟩ := e
    by_cases h2 : k' = k
    · subst h2
      rw [PyDict.dSet, if_pos rfl]
      simp [PyDict.dGet, h]
    · rw [PyDict.dSet, if_neg h2]
      by_cases h3 : k' = q
      · simp [PyDict.dGet, h3]
      · simp [PyDict.dGet, h3, ih]

theorem FilePre.graph_fold_not_mem (pm : List (Str × Str)) :
    ∀ (L : List (Str × Str)) (g : List (Str × List Str)) (q : Str),
      (∀ e ∈ L, FilePre.relNorm e.1 ≠ q) →
      PyDict.dGet
        (L.foldl (fun g pc =>
          if (FilePre.resolvedImports pm pc.1 pc.2).isEmpty then g
          else PyDict.dSet g (FilePre.relNorm pc.1) (FilePre.resolvedImports pm pc.1 pc.2)) g) q
        = PyDict.dGet g q := by
  intro L
  induction L with
  | nil => intro g q _; rfl
  | cons e t ih =>
    intro g q hne
    rw [List.foldl_cons]
    rw [ih _ q (fun x hx => hne x (List.mem_cons_of_mem _ hx))]
    by_cases hres : (FilePre.resolvedImports pm e.1 e.2).isEmpty = true
    · rw [if_pos hres]
    · rw [if_neg hres]
      exact PyDict.dGet_dSet_ne _ _ _ _ (hne e (List.mem_cons_self _ _))

theorem FilePre.graph_fold_lookup (pm : List (Str × Str))
    (L1 L2 : List (Str × Str)) (p c : Str)
    (hnd1 : ∀ e ∈ L1, FilePre.relNorm e.1 ≠ FilePre.relNorm p)
    (hnd2 : ∀ e ∈ L2, FilePre.relNorm e.1 ≠ FilePre.relNorm p) :
    PyDict.dGet
      ((L1 ++ (p, c) :: L2).foldl (fun g pc =>
        if (FilePre.resolvedImports pm pc.1 pc.2).isEmpty then g
        else PyDict.dSet g (FilePre.relNorm pc.1) (FilePre.resolvedImports pm pc.1 pc.2)) [])
      (FilePre.relNorm p)
      = (if (FilePre.resolvedImports pm p c).isEmpty then Option.none
         else some (FilePre.resolvedImports pm p c)) := by
  rw [List.foldl_append, List.foldl_cons]
  rw [FilePre.graph_fold_not_mem pm L2 _ _ hnd2]
  by_cases hres : (FilePre.resolvedImports pm p c).isEmpty = true
  · rw [if_pos hres, if_pos hres]
    exact FilePre.graph_fold_not_mem pm L1 [] _ hnd1
  · rw [if_neg hres, if_neg hres]
    exact PyDict.dGet_dSet_self _ _ _

/-- C6: the claim says every resolvable relative import of a known
file yields an edge in the dependency graph.  Counterexample: edges are
only collected for files passing the inclusion filter — the importer
`a.test.ts` is excluded (ignore pattern `.test.`, test
classification), so its resolvable import `./b` produces no edge at
all. -/
theorem FilePre.c6_counterexample :
    (("./b".data) ∈ FilePre.extract_imports ("a.test.ts".data)
        ("import x from \"./b\"".data))
    ∧ FilePre.resolve_import (FilePre.path_map Inputs.cexDepMap)
        (PyPath.dirname (FilePre.relNorm ("a.test.ts".data))) ("./b".data)
        = some ("b.ts".data)
    ∧ FilePre.dependency_graph Inputs.cexDepMap = [] := by
  refine ⟨by decide, by decide, by decide⟩

/-- C6 (amended): for an importing file that passes the inclusion
filter (and whose normalised relative path is unambiguous among the
included files), every raw relative import that resolves — by joining
it against the importer's directory, normalising, and probing the
candidate extensions `.ts, .tsx, .js, .jsx, .py` in order, first known
file winning — contributes the edge importer → resolved target to the
dependency graph; the graph entry holds exactly the resolved imports
of that file, so unresolvable imports produce no edge and no error;
and every successful resolution is the first extension probe that hits
a known file. -/
theorem FilePre.c6_dependency_graph (m : List (Str × Str)) (p c : Str)
    (hmem : (p, c) ∈ m) (hinc : FilePre.should_include_file p c = true)
    (hnd : ((FilePre.included_files m).map (fun pc => FilePre.relNorm pc.1)).Nodup) :
    (∀ imp target, imp ∈ FilePre.extract_imports p c →
        FilePre.resolve_import (FilePre.path_map m)
            (PyPath.dirname (FilePre.relNorm p)) imp = some target →
        ∃ deps, PyDict.dGet (FilePre.dependency_graph m) (FilePre.relNorm p) = some deps
          ∧ target ∈ deps)
    ∧ (∀ deps, PyDict.dGet (FilePre.dependency_graph m) (FilePre.relNorm p) = some deps →
        deps = (FilePre.extract_imports p c).filterMap
          (FilePre.resolve_import (FilePre.path_map m) (PyPath.dirname (FilePre.relNorm p))))
    ∧ (∀ base imp target,
        FilePre.resolve_import (FilePre.path_map m) base imp = some target →
        ∃ ext pre post, FilePre.EXT5 = pre ++ ext :: post
          ∧ target = PyStr.replace (PyPath.normpath (PyPath.pjoin base imp))
              ("\\".data) ("/".data) ++ ext
          ∧ PyDict.dMem (FilePre.path_map m) target = true
          ∧ ∀ e ∈ pre, PyDict.dMem (FilePre.path_map m)
              (PyStr.replace (PyPath.normpath (PyPath.pjoin base imp))
                ("\\".data) ("/".data) ++ e) = false) := by
  have hmi : (p, c) ∈ FilePre.included_files m := by
    unfold FilePre.included_files
    exact List.mem_filter.2 ⟨(FilePre.mem_sorted_files m (p, c)).2 hmem, hinc⟩
  rcases List.append_of_mem hmi with ⟨L1, L2, hL⟩
  have hnd' : ((L1.map (fun pc => FilePre.relNorm pc.1))
      ++ FilePre.relNorm p :: (L2.map (fun pc => FilePre.relNorm pc.1))).Nodup := by
    have := hnd
    rw [hL] at this
    simpa using this
  rcases List.nodup_append.1 hnd' with ⟨hn1, hn2, hdisj⟩
  have hnd1 : ∀ e ∈ L1, FilePre.relNorm e.1 ≠ FilePre.relNorm p := by
    intro e he heq
    exact hdisj (List.mem_map_of_mem _ he) (heq ▸ List.mem_cons_self _ _)
  have hnd2 : ∀ e ∈ L2, FilePre.relNorm e.1 ≠ FilePre.relNorm p := by
    intro e he heq
    rcases List.nodup_cons.1 hn2 with ⟨hnotin, -⟩
    exact hnotin (heq ▸ List.mem_map_of_mem _ he)
  have hlook : PyDict.dGet (FilePre.dependency_graph m) (FilePre.relNorm p)
      = (if (FilePre.resolvedImports (FilePre.path_map m) p c).isEmpty then Option.none
         else some (FilePre.resolvedImports (FilePre.path_map m) p c)) := by
    show PyDict.dGet
      ((FilePre.included_files m).foldl (fun g pc =>
        if (FilePre.resolvedImports (FilePre.path_map m) pc.1 pc.2).isEmpty then g
        else PyDict.dSet g (FilePre.relNorm pc.1)
          (FilePre.resolvedImports (FilePre.path_map m) pc.1 pc.2)) [])
      (FilePre.relNorm p) = _
    rw [hL]
    exact FilePre.graph_fold_lookup (FilePre.path_map m) L1 L2 p c hnd1 hnd2
  refine ⟨?_, ?_, ?_⟩
  · intro imp target himp hres
    have htmem : target ∈ FilePre.resolvedImports (FilePre.path_map m) p c := by
      unfold FilePre.resolvedImports
      exact List.mem_filterMap.2 ⟨imp, himp, hres⟩
    have hne : (FilePre.resolvedImports (FilePre.path_map m) p c).isEmpty = false := by
      cases hres2 : (FilePre.resolvedImports (FilePre.path_map m) p c) with
      | nil => rw [hres2] at htmem; exact absurd htmem (List.not_mem_nil _)
      | cons x xs => simp [hres2]
    refine ⟨FilePre.resolvedImports (FilePre.path_map m) p c, ?_, htmem⟩
    rw [hlook, if_neg (by simp [hne])]
  · intro deps hdeps
    rw [hlook] at hdeps
    by_cases hres : (FilePre.resolvedImports (FilePre.path_map m) p c).isEmpty = true
    · rw [if_pos hres] at hdeps
      exact absurd hdeps (by simp)
    · rw [if_neg hres] at hdeps
      have : FilePre.resolvedImports (FilePre.path_map m) p c = deps := by
        injection hdeps
      rw [← this]
      rfl
  · intro base imp target hres
    unfold FilePre.resolve_import at hres
    rcases Option.map_eq_some'.1 hres with ⟨ext, hfind, htarget⟩
    rcases List.find?_eq_some.1 hfind with ⟨hpred, pre, post, hsplit, hprev⟩
    refine ⟨ext, pre, post, hsplit, htarget.symm, htarget ▸ hpred, ?_⟩
    intro e he
    have := hprev e he
    simpa using this

set_option maxRecDepth 100000 in
/-- Witness for C6 at a concrete two-file map with one resolvable
import. -/
theorem FilePre.c6_witness :
    ∃ deps, PyDict.dGet (FilePre.dependency_graph Inputs.wDepMap)
        (FilePre.relNorm ("a.ts".data)) = some deps
      ∧ ("b.ts".data) ∈ deps :=
  (FilePre.c6_dependency_graph Inputs.wDepMap ("a.ts".data)
      ("import x from \"./b\"".data)
      (by decide) (by decide) (by decide)).1
    ("./b".data) ("b.ts".data) (by decide) (by decide)

/-! ## C7 -/

/-- C7: the claim says every included file has estimated token count
strictly below the ceiling 3000.  Counterexample: a 12000-character
file has estimated token count exactly 3000 — not below the ceiling —
yet `should_include_file` accepts it (the code only rejects counts
strictly above the ceiling). -/
theorem FilePre.c7_counterexample :
    FilePre.should_include_file ("a.ts".data) (List.replicate 12000 'a') = true
    ∧ ¬ (FilePre.estimate_tokens (List.replicate 12000 'a') < FilePre.MAX_TOKENS_PER_FILE) := by
  have hlen : (List.replicate 12000 'a' : Str).length = 12000 :=
    List.length_replicate 12000 'a'
  have htok : FilePre.estimate_tokens (List.replicate 12000 'a') = 3000 := by
    rw [FilePre.estimate_tokens, hlen]
  constructor
  · unfold FilePre.should_include_file
    rw [if_neg, if_neg, if_neg, if_neg]
    · decide
    · rw [show FilePre.classify_file ("a.ts".data) = ("Source Code".data) from by decide]
      decide
    · rw [htok]
      decide
    · rw [hlen]
      decide
    · decide
  · rw [htok]
    decide

/-- C7 (amended): a file is included only if no ignore pattern occurs
in its path, its raw length does not exceed the character ceiling
(50000), its estimated token count does not exceed the token ceiling
(3000), its classification is not "Test File", and (additionally) its
extension is in the important-extension list; and every block of the
compiled digest comes from a file passing this filter. -/
theorem FilePre.c7_inclusion_necessary :
    (∀ p c, FilePre.should_include_file p c = true →
      (FilePre.IGNORE_PATTERNS.any (fun pat => PyStr.hasSub pat p)) = false
      ∧ c.length ≤ FilePre.MAX_FILE_LENGTH
      ∧ FilePre.estimate_tokens c ≤ FilePre.MAX_TOKENS_PER_FILE
      ∧ FilePre.classify_file p ≠ ("Test File".data)
      ∧ PyStr.memB (PyPath.splitextExt p) FilePre.IMPORTANT_EXTENSIONS = true)
    ∧ (∀ m b, b ∈ FilePre.file_blocks m →
        ∃ p c, (p, c) ∈ m ∧ FilePre.should_include_file p c = true
          ∧ b = FilePre.build_file_block p c) := by
  constructor
  · intro p c h
    unfold FilePre.should_include_file at h
    by_cases h1 : (FilePre.IGNORE_PATTERNS.any fun pat => PyStr.hasSub pat p) = true
    · rw [if_pos h1] at h
      exact absurd h (by simp)
    · have h1' : (FilePre.IGNORE_PATTERNS.any fun pat => PyStr.hasSub pat p) = false := by
        simpa using h1
      rw [if_neg (by simp [h1'])] at h
      by_cases h2 : c.length > FilePre.MAX_FILE_LENGTH
      · rw [if_pos h2] at h
        exact absurd h (by simp)
      · rw [if_neg h2] at h
        by_cases h3 : FilePre.estimate_tokens c > FilePre.MAX_TOKENS_PER_FILE
        · rw [if_pos h3] at h
          exact absurd h (by simp)
        · rw [if_neg h3] at h
          by_cases h4 : (FilePre.classify_file p == ("Test File".data)) = true
          · rw [if_pos (by simp [h4])] at h
            exact absurd h (by simp)
          · rw [if_neg (by simp at h4 ⊢; exact h4)] at h
            refine ⟨h1', by omega, by omega, ?_, h⟩
            intro hc
            exact h4 (by simp [hc])
  · intro m b hb
    unfold FilePre.file_blocks at hb
    rcases List.mem_map.1 hb with ⟨pc, hpc, hbuild⟩
    rcases List.mem_filter.1 hpc with ⟨hmem, hinc⟩
    exact ⟨pc.1, pc.2, (FilePre.mem_sorted_files m pc).1 hmem, hinc, hbuild.symm⟩

/-- Witness for C7's necessary conditions at a concrete included
file. -/
theorem FilePre.c7_witness :
    (FilePre.IGNORE_PATTERNS.any (fun pat => PyStr.hasSub pat ("a.ts".data))) = false
    ∧ ("x".data).length ≤ FilePre.MAX_FILE_LENGTH
    ∧ FilePre.estimate_tokens ("x".data) ≤ FilePre.MAX_TOKENS_PER_FILE
    ∧ FilePre.classify_file ("a.ts".data) ≠ ("Test File".data)
    ∧ PyStr.memB (PyPath.splitextExt ("a.ts".data)) FilePre.IMPORTANT_EXTENSIONS = true :=
  FilePre.c7_inclusion_necessary.1 ("a.ts".data) ("x".data) (by decide)

/-! ## C2 -/

theorem PyStr.occursIn_append_left (a y x : Str) :
    PyStr.occursIn a y → PyStr.occursIn a (x ++ y) := by
  rintro ⟨u, v, rfl⟩
  exact ⟨x ++ u, v, by simp [List.append_assoc]⟩

theorem PyStr.occursIn_joinWith (sep : Str) (a : Str) :
    ∀ (l : List Str), a ∈ l → PyStr.occursIn a (PyStr.joinWith sep l) := by
  intro l
  induction l with
  | nil => intro ha; exact absurd ha (List.not_mem_nil a)
  | cons x t ih =>
    intro ha
    cases t with
    | nil =>
      rcases List.mem_singleton.1 ha with rfl
      exact ⟨[], [], by simp [PyStr.joinWith]⟩
    | cons y t2 =>
      rcases List.mem_cons.1 ha with rfl | hmem
      · exact ⟨[], sep ++ PyStr.joinWith sep (y :: t2), by simp [PyStr.joinWith, List.append_assoc]⟩
      · have h1 := ih hmem
        have h2 := PyStr.occursIn_append_left a (PyStr.joinWith sep (y :: t2)) (x ++ sep) h1
        rw [PyStr.joinWith]
        simpa [List.append_assoc] using h2

/-- The big file's raw character length, via `List.length_replicate`. -/
theorem Inputs.bigC_len : Inputs.bigC.length = 12000 := by
  show (List.replicate 12000 'a').length = 12000
  rw [List.length_replicate]

/-- Stripping the big all-letter file is the identity. -/
theorem PyStr.strip_big : PyStr.strip Inputs.bigC = Inputs.bigC := by
  have hrep : Inputs.bigC = 'a' :: List.replicate 11999 'a' := by
    show List.replicate 12000 'a' = _
    rw [show (12000 : Nat) = 11999 + 1 from rfl, List.replicate_succ]
  have hdrop : List.dropWhile PyStr.isSpace Inputs.bigC = Inputs.bigC := by
    rw [hrep, List.dropWhile_cons, if_neg (by decide)]
  have hrev : Inputs.bigC.reverse = Inputs.bigC := by
    show (List.replicate 12000 'a').reverse = List.replicate 12000 'a'
    rw [List.reverse_replicate]
  show ((List.dropWhile PyStr.isSpace Inputs.bigC).reverse.dropWhile PyStr.isSpace).reverse = Inputs.bigC
  rw [hdrop, hrev, hdrop, hrev]

/-- No pattern that does not start with the letter occurs as a
substring of a run of that letter. -/
theorem PyStr.hasSub_big (c : Char) (ps : Str) (hc : c ≠ 'a') :
    ∀ n, PyStr.hasSub (c :: ps) (List.replicate n 'a') = false := by
  intro n
  induction n with
  | zero => rfl
  | succ m ih =>
    rw [List.replicate_succ]
    have h1 : PyStr.hasPre (c :: ps) ('a' :: List.replicate m 'a') = false := by
      show (decide (c = 'a') && PyStr.hasPre ps (List.replicate m 'a')) = false
      rw [decide_eq_false hc]
      rfl
    show (PyStr.hasPre (c :: ps) ('a' :: List.replicate m 'a')
          || PyStr.hasSub (c :: ps) (List.replicate m 'a')) = false
    rw [h1, ih]
    rfl

/-- `splitlinesAux` over a separator-free run appends it to the pending
line. -/
theorem PyStr.splitlinesAux_repl :
    ∀ (n : Nat) (a0 : Char) (acc : Str),
      PyStr.splitlinesAux (List.replicate n 'a') (a0 :: acc)
        = [(a0 :: acc).reverse ++ List.replicate n 'a'] := by
  intro n
  induction n with
  | zero =>
    intro a0 acc
    show PyStr.splitlinesAux [] (a0 :: acc) = [(a0 :: acc).reverse ++ []]
    rw [List.append_nil]
    rfl
  | succ m ih =>
    intro a0 acc
    rw [List.replicate_succ]
    have hstep : PyStr.splitlinesAux ('a' :: List.replicate m 'a') (a0 :: acc)
        = PyStr.splitlinesAux (List.replicate m 'a') ('a' :: a0 :: acc) := rfl
    rw [hstep, ih 'a' (a0 :: acc), List.reverse_cons, List.append_assoc]
    rfl

/-- The big file is a single line. -/
theorem PyStr.splitlines_big : PyStr.splitlines Inputs.bigC = [Inputs.bigC] := by
  show PyStr.splitlinesAux Inputs.bigC [] = [Inputs.bigC]
  have hrep : Inputs.bigC = 'a' :: List.replicate 11999 'a' := by
    show List.replicate 12000 'a' = _
    rw [show (12000 : Nat) = 11999 + 1 from rfl, List.replicate_succ]
  rw [hrep]
  have hgen : ∀ (t acc : Str), PyStr.splitlinesAux ('a' :: t) acc
      = PyStr.splitlinesAux t ('a' :: acc) := fun t acc => rfl
  rw [hgen, PyStr.splitlinesAux_repl 11999 'a' []]
  rfl

/-- The dependency regex never fires inside a run of the letter. -/
theorem FilePre.depScan_big :
    ∀ (fuel n : Nat), FilePre.depScanAux fuel (List.replicate n 'a') = [] := by
  intro fuel
  induction fuel with
  | zero => intro n; rfl
  | succ f ih =>
    intro n
    cases n with
    | zero => rfl
    | succ m =>
      rw [List.replicate_succ]
      have hstep : FilePre.depScanAux (f + 1) ('a' :: List.replicate m 'a')
          = FilePre.depScanAux f (List.replicate m 'a') := rfl
      rw [hstep]
      exact ih m

/-- The big file has no extracted dependencies. -/
theorem FilePre.deps_big : FilePre.extract_dependencies Inputs.bigC = [] := by
  show PyStr.sortedLex (PyStr.dedup (FilePre.depScanAux (Inputs.bigC.length + 1) Inputs.bigC)) = []
  rw [show FilePre.depScanAux (Inputs.bigC.length + 1) Inputs.bigC
        = FilePre.depScanAux (Inputs.bigC.length + 1) (List.replicate 12000 'a') from rfl,
      FilePre.depScan_big]
  rfl

/-- The big file's estimated token count sits exactly at the per-file
token ceiling. -/
theorem FilePre.est_big : FilePre.estimate_tokens Inputs.bigC = 3000 := by
  have h : ∀ t : Str, FilePre.estimate_tokens t = t.length / 4 := fun t => rfl
  rw [h, Inputs.bigC_len]

/-- The big file yields no summary. -/
theorem FilePre.summary_big : FilePre.extract_summary Inputs.bigC 20 = [] := by
  have hs1 : PyStr.hasSub (("/**").data) Inputs.bigC = false :=
    PyStr.hasSub_big '/' (("**").data) (by decide) 12000
  have hs2 : PyStr.hasSub (("/*").data) Inputs.bigC = false :=
    PyStr.hasSub_big '/' (("*").data) (by decide) 12000
  have hi1 : Inputs.bigC.isEmpty = false := rfl
  have hp1 : PyStr.hasPre (("//").data) Inputs.bigC = false := rfl
  have hp2 : PyStr.hasPre (("#").data) Inputs.bigC = false := rfl
  have hp3 : PyStr.hasPre FilePre.tripleD Inputs.bigC = false := rfl
  have hp4 : PyStr.hasPre FilePre.tripleS Inputs.bigC = false := rfl
  have hp5 : PyStr.hasPre (("*").data) Inputs.bigC = false := rfl
  have hp6 : PyStr.hasPre (("def ").data) Inputs.bigC = false := rfl
  have hp7 : PyStr.hasPre (("class ").data) Inputs.bigC = false := rfl
  have hp8 : PyStr.hasPre (("function ").data) Inputs.bigC = false := rfl
  have hp9 : PyStr.hasPre (("export ").data) Inputs.bigC = false := rfl
  have hloop : FilePre.summaryLoop [Inputs.bigC] [Inputs.bigC] 0 false [] = [] := by
    simp [FilePre.summaryLoop, PyStr.strip_big, hi1, hs1, hs2,
      hp1, hp2, hp3, hp4, hp5, hp6, hp7, hp8, hp9]
  show PyStr.strip (PyStr.joinWith (("\n").data)
      (FilePre.summaryLoop (PyStr.splitlines (PyStr.strip Inputs.bigC))
        ((PyStr.splitlines (PyStr.strip Inputs.bigC)).take 20) 0 false [])) = []
  rw [PyStr.strip_big, PyStr.splitlines_big]
  rw [show ([Inputs.bigC].take 20) = [Inputs.bigC] from rfl, hloop]
  rfl

/-- The big file exposes no code symbols under a `.ts` extension. -/
theorem FilePre.symbols_big (p : Str) (hext : PyPath.splitextExt p = ((".ts").data)) :
    FilePre.extract_code_symbols p Inputs.bigC = [] := by
  show FilePre.symbolsLoop (PyStr.splitlines Inputs.bigC) (PyPath.splitextExt p)
      (PyStr.splitlines Inputs.bigC) 0 = []
  rw [PyStr.splitlines_big, hext]
  have hm : PyStr.memB ((".ts").data) FilePre.TS_FAMILY = true := by decide
  have hi : PyStr.hasSub (("interface ").data) Inputs.bigC = false :=
    PyStr.hasSub_big 'i' (("nterface ").data) (by decide) 12000
  have hpa : PyStr.hasPre (("export function ").data) Inputs.bigC = false := rfl
  have hpb : PyStr.hasPre (("export const ").data) Inputs.bigC = false := rfl
  have hpc : PyStr.hasPre (("export async function ").data) Inputs.bigC = false := rfl
  have hpd : PyStr.hasPre (("export default function ").data) Inputs.bigC = false := rfl
  simp [FilePre.symbolsLoop, PyStr.strip_big, hm, hi, hpa, hpb, hpc, hpd]

/-- Inclusion of a 12000-character file: the per-file ceilings are not
strict, so the path-level tests alone decide. -/
theorem FilePre.inc_big (p : Str)
    (h1 : FilePre.IGNORE_PATTERNS.any (fun q => PyStr.hasSub q p) = false)
    (h2 : (FilePre.classify_file p == (("Test File").data)) = false)
    (h3 : PyStr.memB (PyPath.splitextExt p) FilePre.IMPORTANT_EXTENSIONS = true) :
    FilePre.should_include_file p Inputs.bigC = true := by
  unfold FilePre.should_include_file
  rw [if_neg (by rw [h1]; exact Bool.false_ne_true)]
  rw [if_neg (by rw [Inputs.bigC_len]; decide)]
  rw [if_neg (by rw [FilePre.est_big]; decide)]
  rw [if_neg (by rw [h2]; exact Bool.false_ne_true)]
  exact h3

/-- Every file of the six-file map survives the inclusion filter. -/
theorem FilePre.included_big : FilePre.included_files Inputs.bigMap = Inputs.bigMap := by
  have h1 : FilePre.should_include_file (("f1.ts").data) Inputs.bigC = true :=
    FilePre.inc_big _ (by decide) (by decide) (by decide)
  have h2 : FilePre.should_include_file (("f2.ts").data) Inputs.bigC = true :=
    FilePre.inc_big _ (by decide) (by decide) (by decide)
  have h3 : FilePre.should_include_file (("f3.ts").data) Inputs.bigC = true :=
    FilePre.inc_big _ (by decide) (by decide) (by decide)
  have h4 : FilePre.should_include_file (("f4.ts").data) Inputs.bigC = true :=
    FilePre.inc_big _ (by decide) (by decide) (by decide)
  have h5 : FilePre.should_include_file (("f5.ts").data) Inputs.bigC = true :=
    FilePre.inc_big _ (by decide) (by decide) (by decide)
  have h6 : FilePre.should_include_file (("f6.ts").data) Inputs.bigC = true :=
    FilePre.inc_big _ (by decide) (by decide) (by decide)
  have hsorted : FilePre.sorted_files Inputs.bigMap = Inputs.bigMap := rfl
  show (FilePre.sorted_files Inputs.bigMap).filter
      (fun pc => FilePre.should_include_file pc.1 pc.2) = Inputs.bigMap
  rw [hsorted]
  simp only [Inputs.bigMap, List.filter_cons, List.filter_nil,
    h1, h2, h3, h4, h5, h6, if_pos, if_true]

/-- The six rendered blocks of the six-file map. -/
theorem FilePre.blocks_big :
    FilePre.file_blocks Inputs.bigMap
      = [FilePre.build_file_block (("f1.ts").data) Inputs.bigC,
         FilePre.build_file_block (("f2.ts").data) Inputs.bigC,
         FilePre.build_file_block (("f3.ts").data) Inputs.bigC,
         FilePre.build_file_block (("f4.ts").data) Inputs.bigC,
         FilePre.build_file_block (("f5.ts").data) Inputs.bigC,
         FilePre.build_file_block (("f6.ts").data) Inputs.bigC] := by
  show (FilePre.included_files Inputs.bigMap).map
      (fun pc => FilePre.build_file_block pc.1 pc.2) = _
  rw [FilePre.included_big]
  simp only [Inputs.bigMap, List.map_cons, List.map_nil]

/-- The rendered block of a big file under a five-character `.ts` path
has exactly 12072 characters. -/
theorem FilePre.block_big_len (p : Str)
    (hcls : FilePre.classify_file p = (("Source Code").data))
    (hext : PyPath.splitextExt p = ((".ts").data))
    (hrel : PyStr.replace p (("/workspace/").data) [] = p)
    (hplen : p.length = 5) :
    (FilePre.build_file_block p Inputs.bigC).length = 12072 := by
  have hsym := FilePre.symbols_big p hext
  have hrepr : Nat.repr 3000 = "3000" := rfl
  simp only [FilePre.build_file_block, hcls, hext, hrel, FilePre.summary_big, hsym,
    FilePre.deps_big, FilePre.est_big, PyStr.strip_big, hrepr]
  simp only [List.isEmpty_nil, if_true, List.append_nil, List.length_append,
    Inputs.bigC_len, hplen]
  decide

/-- C2 counterexample: on a map of six 12000-character `.ts` files every
file passes the per-file filter, every rendered block has 12072
characters, and the compiled digest exceeds the 50000-character
per-file ceiling by more than one full block (and the 3000-token
ceiling by more than one block's tokens): there is no global size
budget, so nothing is excluded to stay within one. -/
theorem FilePre.c2_counterexample :
    FilePre.included_files Inputs.bigMap = Inputs.bigMap
    ∧ (FilePre.file_blocks Inputs.bigMap).map List.length
        = [12072, 12072, 12072, 12072, 12072, 12072]
    ∧ FilePre.MAX_FILE_LENGTH + 12072 < (FilePre.preprocess_codebase Inputs.bigMap).length
    ∧ FilePre.MAX_TOKENS_PER_FILE
        + FilePre.estimate_tokens (FilePre.build_file_block (("f1.ts").data) Inputs.bigC)
      < FilePre.estimate_tokens (FilePre.preprocess_codebase Inputs.bigMap) := by
  have hL1 : (FilePre.build_file_block (("f1.ts").data) Inputs.bigC).length = 12072 :=
    FilePre.block_big_len _ (by decide) (by decide) (by decide) (by decide)
  have hL2 : (FilePre.build_file_block (("f2.ts").data) Inputs.bigC).length = 12072 :=
    FilePre.block_big_len _ (by decide) (by decide) (by decide) (by decide)
  have hL3 : (FilePre.build_file_block (("f3.ts").data) Inputs.bigC).length = 12072 :=
    FilePre.block_big_len _ (by decide) (by decide) (by decide) (by decide)
  have hL4 : (FilePre.build_file_block (("f4.ts").data) Inputs.bigC).length = 12072 :=
    FilePre.block_big_len _ (by decide) (by decide) (by decide) (by decide)
  have hL5 : (FilePre.build_file_block (("f5.ts").data) Inputs.bigC).length = 12072 :=
    FilePre.block_big_len _ (by decide) (by decide) (by decide) (by decide)
  have hL6 : (FilePre.build_file_block (("f6.ts").data) Inputs.bigC).length = 12072 :=
    FilePre.block_big_len _ (by decide) (by decide) (by decide) (by decide)
  have hmaplen : (FilePre.file_blocks Inputs.bigMap).map List.length
      = [12072, 12072, 12072, 12072, 12072, 12072] := by
    rw [FilePre.blocks_big]
    simp only [List.map_cons, List.map_nil, hL1, hL2, hL3, hL4, hL5, hL6]
  have hJ1 : PyStr.joinWith (("\n---\n").data) (FilePre.file_blocks Inputs.bigMap)
      = FilePre.build_file_block (("f1.ts").data) Inputs.bigC ++ (("\n---\n").data)
        ++ (FilePre.build_file_block (("f2.ts").data) Inputs.bigC ++ (("\n---\n").data)
        ++ (FilePre.build_file_block (("f3.ts").data) Inputs.bigC ++ (("\n---\n").data)
        ++ (FilePre.build_file_block (("f4.ts").data) Inputs.bigC ++ (("\n---\n").data)
        ++ (FilePre.build_file_block (("f5.ts").data) Inputs.bigC ++ (("\n---\n").data)
        ++ FilePre.build_file_block (("f6.ts").data) Inputs.bigC)))) := by
    rw [FilePre.blocks_big]
    simp only [PyStr.joinWith]
  have hJlen : (PyStr.joinWith (("\n---\n").data) (FilePre.file_blocks Inputs.bigMap)).length
      = 72457 := by
    rw [hJ1]
    simp only [List.length_append]
    simp only [hL1, hL2, hL3, hL4, hL5, hL6]
    decide
  have hsplit : FilePre.preprocess_codebase Inputs.bigMap
      = (FilePre.summary_header Inputs.bigMap ++ (("\n").data)
         ++ FilePre.route_summary Inputs.bigMap ++ (("\n").data)
         ++ FilePre.symbol_summary Inputs.bigMap ++ (("\n").data)
         ++ FilePre.dep_summary Inputs.bigMap ++ (("\n---\n").data))
        ++ PyStr.joinWith (("\n---\n").data) (FilePre.file_blocks Inputs.bigMap) := by
    simp only [FilePre.preprocess_codebase, List.append_assoc]
  have hlen3 : FilePre.MAX_FILE_LENGTH + 12072
      < (FilePre.preprocess_codebase Inputs.bigMap).length := by
    rw [hsplit, List.length_append, hJlen]
    show 50000 + 12072 < _ + 72457
    omega
  have htok : FilePre.MAX_TOKENS_PER_FILE
      + FilePre.estimate_tokens (FilePre.build_file_block (("f1.ts").data) Inputs.bigC)
      < FilePre.estimate_tokens (FilePre.preprocess_codebase Inputs.bigMap) := by
    have hEq : ∀ s : Str, FilePre.estimate_tokens s = s.length / 4 := fun s => rfl
    rw [hEq, hEq, hL1, hsplit, List.length_append, hJlen,
        show FilePre.MAX_TOKENS_PER_FILE = 3000 from rfl]
    omega
  exact ⟨FilePre.included_big, hmaplen, hlen3, htok⟩

/-- C2 (amended): block granularity is respected — every file passing
the inclusion filter contributes its complete block, contiguously and
untruncated, to the compiled digest (excluded files contribute
nothing); however the digest has no global size cap, so it can exceed
the configured ceilings by more than one block
(`FilePre.c2_counterexample`). -/
theorem FilePre.c2_blocks_never_truncated (m : List (Str × Str)) (p c : Str)
    (hmem : (p, c) ∈ m) (hinc : FilePre.should_include_file p c = true) :
    PyStr.occursIn (FilePre.build_file_block p c) (FilePre.preprocess_codebase m) := by
  have hmf : (p, c) ∈ (FilePre.sorted_files m).filter
      (fun pc => FilePre.should_include_file pc.1 pc.2) :=
    List.mem_filter.2 ⟨(FilePre.mem_sorted_files m (p, c)).2 hmem, hinc⟩
  have hb : FilePre.build_file_block p c ∈ FilePre.file_blocks m := by
    have hmapped := List.mem_map_of_mem
      (fun pc : Str × Str => FilePre.build_file_block pc.1 pc.2) hmf
    rw [FilePre.file_blocks, FilePre.included_files]
    exact hmapped
  have hjoin := PyStr.occursIn_joinWith (("\n---\n").data)
    (FilePre.build_file_block p c) (FilePre.file_blocks m) hb
  rw [FilePre.preprocess_codebase]
  exact PyStr.occursIn_append_left _ _ _ hjoin

set_option maxRecDepth 100000 in
/-- Witness for C2's amended theorem at a concrete one-file map. -/
theorem FilePre.c2_witness :
    PyStr.occursIn (FilePre.build_file_block ("a.ts".data) ("x".data))
      (FilePre.preprocess_codebase [(("a.ts".data), ("x".data))]) :=
  FilePre.c2_blocks_never_truncated [(("a.ts".data), ("x".data))]
    ("a.ts".data) ("x".data) (by decide) (by decide)

/-- Witness for C1 at the default ceiling 3 with concrete oracles. -/
theorem Loop.c1_witness :
    ∃ k, 1 ≤ k ∧ k ≤ 3
      ∧ (generation_review_loop Inputs.wgen Inputs.wrev 3).2 = attempts Inputs.wgen Inputs.wrev 0 k
      ∧ (∀ j, j + 1 < k → (Inputs.wrev j (Inputs.wgen j)).shouldRegenerate = true)
      ∧ ((Inputs.wrev (k - 1) (Inputs.wgen (k - 1))).shouldRegenerate = false ∨ k = 3)
      ∧ ∃ bc bs, (generation_review_loop Inputs.wgen Inputs.wrev 3).1 = some (bc, bs)
          ∧ (bc, bs) ∈ (attempts Inputs.wgen Inputs.wrev 0 k).map (fun a => (a.1, a.2.score))
          ∧ ∀ a ∈ attempts Inputs.wgen Inputs.wrev 0 k, a.2.score ≤ bs :=
  Loop.c1_generation_review_loop Inputs.wgen Inputs.wrev 3 (by decide)
